import Mathlib

/-!
# L1JetEnergyCorrections: jet correction, record construction and matching

A shallow embedding of `correctJets`, `loadCorrectionFunctions` and
`getSuffixFromDirectory` from `bin/RunMatcher.cpp`, of `makeTLorentzVectors`
from `bin/RunMatcherData.cpp`, of the per-pair output of both drivers, and of
the matcher declared in `interface/DeltaR_Matcher.h`, with their properties
proved about it.

Conventions of the embedding:

* `double` values are exact rationals (`ℚ`); rounding inside double arithmetic
  is not modelled.  The two narrowing conversions to `float` in `correctJets`
  (`float absEta`, `float newPt`) are modelled by `toFloat`: IEEE single
  precision, round to nearest, ties to even, with subnormals.  The edge tables
  `mainEtaBins` and `scenarioEtaBins` hold the single-precision values of the
  literals of `main`; the loader only hands the edges to the name builder, so
  its examples take the literals as they are.  Overflow to infinity and NaN
  are not modelled (an overflowed value stays a large rational, which every
  comparison made here treats as it treats infinity).
* A `TLorentzVector` is the record of what `Pt()`, `Eta()`, `Phi()`, `M()`
  read from it.
* A `std::vector` is a `List`; `v.size()` is `List.length`.
* `size_t` arithmetic is 64-bit: `v.size() - 1` wraps to `2^64 - 1` on an empty
  vector (`sizeMinusOne`).  Vector sizes themselves fit in a `size_t`, and the
  32-bit loop counter of the loader is taken not to wrap (fewer than `2^32`
  bins).
* C++ mutates the jet vector in place and may leave by `throw`, so every
  routine returns the vector as it stands when control leaves, together with a
  `Status` telling how it left.
* `operator[]` on a `std::vector` is unchecked. A read past the end has no
  defined behaviour and throws nothing; the embedding stops there with
  `Status.undefinedRead`.
-/

namespace L1JetEnergyCorrections

/-! ## Data model -/

/-- A jet four-vector as the drivers use `TLorentzVector`: it is written with
`SetPtEtaPhiM` and read with `Pt()`, `Eta()`, `Phi()`, `M()`. -/
structure TLorentzVector where
  pt : ℚ
  eta : ℚ
  phi : ℚ
  m : ℚ
deriving DecidableEq

/-- The `TLorentzVector::SetPtEtaPhiM` setter, as what is read back from the
vector it writes.  ROOT stores `(px, py, pz, E)` computed from the magnitude
of the pt it is given, so a vector written with pt 0 is the null vector, which
reads back `Eta() = 0` and `Phi() = 0` whatever eta and phi were given.  The
azimuth is taken in the principal range `(-π, π]`, where `Phi()` returns it as
given (the reduction of another azimuth by a multiple of `2π` is not a
rational operation), and the mass not negative, as in both drivers. -/
def SetPtEtaPhiM (pt eta phi m : ℚ) : TLorentzVector :=
  if pt = 0 then ⟨0, 0, 0, m⟩ else ⟨|pt|, eta, phi, m⟩

/-- A transfer function as the routine uses `TF1`: `Eval` and the fit range
returned by `GetRange`. -/
structure TF1 where
  eval : ℚ → ℚ
  xmin : ℚ
  xmax : ℚ

/-- How control leaves a routine.  `configurationError` is
`range_error("Corrections functions don't match eta bins")`, `rangeError` is
`range_error("Max eta != first eta bin")`, `lookupError` is the
`invalid_argument` of the loader, `inputError` is
`range_error("Eta/eta/phi vectors different sizes, ...")` of
`makeTLorentzVectors`; `undefinedRead` is an unchecked vector read past the
end, which is not an exception. -/
inductive Status where
  | done
  | configurationError
  | rangeError
  | lookupError
  | inputError
  | undefinedRead
deriving DecidableEq

/-- The jet vector when control leaves `correctJets`, and how it left. -/
structure CorrectResult where
  jets : List TLorentzVector
  status : Status

/-- The function vector when control leaves `loadCorrectionFunctions`, and how
it left. -/
structure LoadResult where
  corrFns : List TF1
  status : Status

/-! ## Machine arithmetic and the library binary search -/

/-- The value of `v.size() - 1` for a vector of `n` elements, in 64-bit
`size_t` arithmetic: the subtraction wraps to `2^64 - 1` on an empty vector,
and is exact otherwise (`sizeMinusOne_eq_mod` relates it to `% 2^64`). -/
def sizeMinusOne (n : Nat) : Nat :=
  if n = 0 then 2 ^ 64 - 1 else n - 1

/-- Rounding of a rational to the nearest integer, ties to the even one. -/
def roundHalfEven (q : ℚ) : ℤ :=
  if q - ⌊q⌋ < 1 / 2 then ⌊q⌋
  else if 1 / 2 < q - ⌊q⌋ then ⌊q⌋ + 1
  else if ⌊q⌋ % 2 = 0 then ⌊q⌋ else ⌊q⌋ + 1

/-- The exponent of the unit in the last place of the single-precision values
of the size of `x`: 24 significant bits in the binade of `x`, and the fixed
unit `2^-149` below `2^-126` (subnormals). -/
def ulpExponent (x : ℚ) : ℤ :=
  max (Int.log 2 |x|) (-126) - 23

/-- The narrowing conversion of a `double` to `float`: the nearest multiple of
the unit in the last place, ties to even. -/
def toFloat (x : ℚ) : ℚ :=
  roundHalfEven (x / 2 ^ ulpExponent x) * 2 ^ ulpExponent x

/-- The loop of `std::lower_bound`: `first` and `len` delimit the range still
searched, the leading argument bounds the number of halvings. -/
def lowerBoundLoop (xs : List ℚ) (val : ℚ) : Nat → Nat → Nat → Nat
  | 0, first, _ => first
  | fuel + 1, first, len =>
    if len = 0 then first
    else
      let half := len / 2
      let middle := first + half
      if xs.getD middle 0 < val then
        lowerBoundLoop xs val fuel (middle + 1) (len - half - 1)
      else
        lowerBoundLoop xs val fuel first half

/-- The call `std::lower_bound(xs.begin(), xs.end(), val)`, as the offset of
the returned iterator from `xs.begin()`. -/
def lowerBound (xs : List ℚ) (val : ℚ) : Nat :=
  lowerBoundLoop xs val xs.length 0 xs.length

/-! ## correctJets -/

/-- Lines 313-321 of `correctJets`: find the eta bin of a jet and fetch its
correction function.  `absEta` is a `float`: `fabs(jetItr.Eta())` is narrowed
before it is compared with the `float` edges. -/
def selectCorrFn (corrFns : List TF1) (etaBins : List ℚ) (jet : TLorentzVector) :
    Except Status TF1 :=
  let absEta := toFloat |jet.eta|
  let maxItr := lowerBound etaBins absEta
  if maxItr = 0 then
    .error .rangeError
  else
    let minItr := maxItr - 1
    match corrFns[minItr]? with
    | some corrFn => .ok corrFn
    | none => .error .undefinedRead

/-- The condition of the `if` on lines 328-329 of `correctJets`. -/
def shouldCorrect (minPt fitMin fitMax pt : ℚ) : Bool :=
  (decide (minPt < 0) && decide (pt > fitMin) && decide (pt < fitMax))
    || (decide (minPt ≥ 0) && decide (pt ≥ minPt))

/-- Lines 323-336 of `correctJets`: decide whether to correct, scale, and keep
the new pt only inside the safeguard window.  `newPt` is a `float`: the
product is narrowed before it is tested and stored. -/
def applyCorrection (corrFn : TF1) (minPt : ℚ) (jet : TLorentzVector) : TLorentzVector :=
  let fitMin := corrFn.xmin
  let fitMax := corrFn.xmax
  if shouldCorrect minPt fitMin fitMax jet.pt then
    let newPt := toFloat (jet.pt * corrFn.eval jet.pt)
    if newPt < 1000 ∧ newPt > 0 then
      SetPtEtaPhiM newPt jet.eta jet.phi jet.m
    else jet
  else jet

/-- The body of the jet loop of `correctJets` for one jet. -/
def correctJet (corrFns : List TF1) (etaBins : List ℚ) (minPt : ℚ) (jet : TLorentzVector) :
    Except Status TLorentzVector :=
  match selectCorrFn corrFns etaBins jet with
  | .ok corrFn => .ok (applyCorrection corrFn minPt jet)
  | .error e => .error e

/-- The jet loop of `correctJets`: jets are rewritten in order; when a jet
stops the loop, the jets before it are already rewritten and the rest are
untouched. -/
def correctLoop (corrFns : List TF1) (etaBins : List ℚ) (minPt : ℚ) :
    List TLorentzVector → CorrectResult
  | [] => ⟨[], .done⟩
  | jet :: rest =>
    match correctJet corrFns etaBins minPt jet with
    | .ok jet' =>
      let r := correctLoop corrFns etaBins minPt rest
      ⟨jet' :: r.jets, r.status⟩
    | .error e => ⟨jet :: rest, e⟩

/-- The routine `correctJets(jets, corrFns, etaBins, minPt)`. -/
def correctJets (jets : List TLorentzVector) (corrFns : List TF1) (etaBins : List ℚ)
    (minPt : ℚ) : CorrectResult :=
  if corrFns.length ≠ sizeMinusOne etaBins.length then
    ⟨jets, .configurationError⟩
  else
    correctLoop corrFns etaBins minPt jets

/-! ## loadCorrectionFunctions -/

/-- The bin loop of `loadCorrectionFunctions`.  The leading argument is the
number of iterations left (`etaBins.size()-1 - ind`), `ind` the loop counter.
`file` is the opened correction file as a name lookup (`Get` followed by the
`dynamic_cast`), `binName` the name `fitfcneta_<etaMin>_<etaMax>` built by
`TString::Format`. -/
def loadLoop {Name : Type} (file : Name → Option TF1) (binName : ℚ → ℚ → Name)
    (etaBins : List ℚ) : Nat → Nat → List TF1 → LoadResult
  | 0, _, corrFns => ⟨corrFns, .done⟩
  | left + 1, ind, corrFns =>
    match etaBins[ind]?, etaBins[ind + 1]? with
    | some etaMin, some etaMax =>
      match file (binName etaMin etaMax) with
      | some fit => loadLoop file binName etaBins left (ind + 1) (corrFns ++ [fit])
      | none => ⟨corrFns, .lookupError⟩
    | _, _ => ⟨corrFns, .undefinedRead⟩

/-- The routine `loadCorrectionFunctions(filename, corrFns, etaBins)`, once the
file is open. -/
def loadCorrectionFunctions {Name : Type} (file : Name → Option TF1)
    (binName : ℚ → ℚ → Name) (corrFns : List TF1) (etaBins : List ℚ) : LoadResult :=
  loadLoop file binName etaBins (sizeMinusOne etaBins.length) 0 corrFns

/-! ## makeTLorentzVectors (RunMatcherData.cpp) -/

/-- The record loop of `makeTLorentzVectors`.  The leading argument is the
number of iterations left (`et.size() - i`), `i` the loop counter, `vecs` the
records pushed so far. -/
def makeLoop (et eta phi : List ℚ) :
    Nat → Nat → List TLorentzVector → Except Status (List TLorentzVector)
  | 0, _, vecs => .ok vecs
  | left + 1, i, vecs =>
    match et[i]?, eta[i]?, phi[i]? with
    | some e, some h, some p =>
      makeLoop et eta phi left (i + 1) (vecs ++ [SetPtEtaPhiM e h p 0])
    | _, _, _ => .error .undefinedRead

/-- The routine `makeTLorentzVectors(et, eta, phi)`: a `throw` returns no
vector at all. -/
def makeTLorentzVectors (et eta phi : List ℚ) : Except Status (List TLorentzVector) :=
  if et.length ≠ eta.length ∨ et.length ≠ phi.length then
    .error .inputError
  else
    makeLoop et eta phi et.length 0 []

/-! ## The output rows of the two drivers -/

/-- A matched pair as the drivers read it: `refJet()` and `l1Jet()`. -/
structure MatchedPair where
  refJet : TLorentzVector
  l1Jet : TLorentzVector
deriving DecidableEq

/-- The `TLorentzVector` accessors that are not rational functions of
`(pt, eta, phi, m)`: `Et()`, `DeltaR` and `DeltaPhi`.  They are parameters of
every routine that calls them. -/
structure Kinematics where
  Et : TLorentzVector → ℚ
  DeltaR : TLorentzVector → TLorentzVector → ℚ
  DeltaPhi : TLorentzVector → TLorentzVector → ℚ

/-- The branch variables `out_*` of `RunMatcher.cpp`; a row of the tree is
their value at a call of `Fill`. -/
structure OutVars where
  pt : ℚ
  eta : ℚ
  phi : ℚ
  rsp : ℚ
  rsp2 : ℚ
  dr : ℚ
  deta : ℚ
  dphi : ℚ
  ptRef : ℚ
  etaRef : ℚ
  phiRef : ℚ
  ptDiff : ℚ
  resL1 : ℚ
  resGen : ℚ

/-- The initial values of the branch variables of `RunMatcher.cpp`
(lines 123-126). -/
def initOutVars : OutVars :=
  ⟨-1, 99, 99, -1, -1, 99, 99, 99, -1, 99, 99, 99999, 99, 99⟩

/-- The assignments of lines 199-211 of `RunMatcher.cpp` for one pair `it`.
A variable that is not assigned keeps the value it had. -/
def RunMatcher.assign (K : Kinematics) (out : OutVars) (it : MatchedPair) : OutVars :=
  let out := { out with pt := K.Et it.l1Jet }
  let out := { out with eta := it.l1Jet.eta }
  let out := { out with phi := it.l1Jet.phi }
  let out := { out with rsp := K.Et it.refJet / K.Et it.l1Jet }
  let out := { out with rsp2 := K.Et it.l1Jet / K.Et it.refJet }
  let out := { out with dr := K.DeltaR it.refJet it.l1Jet }
  let out := { out with deta := it.refJet.eta - it.l1Jet.eta }
  let out := { out with dphi := K.DeltaPhi it.refJet it.l1Jet }
  let out := { out with etaRef := it.refJet.eta }
  let out := { out with phiRef := it.refJet.phi }
  let out := { out with ptDiff := K.Et it.l1Jet - K.Et it.refJet }
  let out := { out with resL1 := out.ptDiff / K.Et it.l1Jet }
  let out := { out with resGen := out.ptDiff / K.Et it.refJet }
  out

/-- The pair loop of `RunMatcher.cpp` (lines 197-213): assign, then `Fill`.
Returns the branch variables after the loop and the rows written. -/
def RunMatcher.storePairs (K : Kinematics) :
    OutVars → List MatchedPair → OutVars × List OutVars
  | out, [] => (out, [])
  | out, it :: rest =>
    let out1 := RunMatcher.assign K out it
    let r := RunMatcher.storePairs K out1 rest
    (r.1, out1 :: r.2)

/-- The rows written by the event loop of `RunMatcher.cpp`, given the match
results of each event in turn; the branch variables live across events. -/
def RunMatcher.eventLoop (K : Kinematics) : OutVars → List (List MatchedPair) → List OutVars
  | _, [] => []
  | out, matchResults :: events =>
    let r := RunMatcher.storePairs K out matchResults
    r.2 ++ RunMatcher.eventLoop K r.1 events

/-- The branch variables `out_*` of `RunMatcherData.cpp`. -/
structure OutVarsData where
  pt : ℚ
  eta : ℚ
  phi : ℚ
  rsp : ℚ
  rsp_inv : ℚ
  dr : ℚ
  deta : ℚ
  dphi : ℚ
  ptRef : ℚ
  etaRef : ℚ
  phiRef : ℚ
  ptDiff : ℚ
  resL1 : ℚ
  resRef : ℚ
  trueNumInteractions : ℚ
  numPUVertices : ℚ

/-- The initial values of the branch variables of `RunMatcherData.cpp`
(lines 90-94). -/
def initOutVarsData : OutVarsData :=
  ⟨-1, 99, 99, -1, -1, 99, 99, 99, -1, 99, 99, 99999, 99, 99, -1, -1⟩

/-- The assignments of lines 175-188 of `RunMatcherData.cpp` for one pair. -/
def RunMatcherData.assign (K : Kinematics) (out : OutVarsData) (it : MatchedPair) :
    OutVarsData :=
  let out := { out with pt := K.Et it.l1Jet }
  let out := { out with eta := it.l1Jet.eta }
  let out := { out with phi := it.l1Jet.phi }
  let out := { out with rsp := K.Et it.l1Jet / K.Et it.refJet }
  let out := { out with rsp_inv := K.Et it.refJet / K.Et it.l1Jet }
  let out := { out with dr := K.DeltaR it.refJet it.l1Jet }
  let out := { out with deta := it.refJet.eta - it.l1Jet.eta }
  let out := { out with dphi := K.DeltaPhi it.refJet it.l1Jet }
  let out := { out with ptRef := it.refJet.pt }
  let out := { out with etaRef := it.refJet.eta }
  let out := { out with phiRef := it.refJet.phi }
  let out := { out with ptDiff := K.Et it.l1Jet - K.Et it.refJet }
  let out := { out with resL1 := out.ptDiff / K.Et it.l1Jet }
  let out := { out with resRef := out.ptDiff / K.Et it.refJet }
  out

/-- The pair loop of `RunMatcherData.cpp` (lines 173-190). -/
def RunMatcherData.storePairs (K : Kinematics) :
    OutVarsData → List MatchedPair → OutVarsData × List OutVarsData
  | out, [] => (out, [])
  | out, it :: rest =>
    let out1 := RunMatcherData.assign K out it
    let r := RunMatcherData.storePairs K out1 rest
    (r.1, out1 :: r.2)

/-- The rows written by the event loop of `RunMatcherData.cpp`, given the
match results of each event that passes the trigger selection. -/
def RunMatcherData.eventLoop (K : Kinematics) :
    OutVarsData → List (List MatchedPair) → List OutVarsData
  | _, [] => []
  | out, matchResults :: events =>
    let r := RunMatcherData.storePairs K out matchResults
    r.2 ++ RunMatcherData.eventLoop K r.1 events

/-! ## getSuffixFromDirectory -/

/-- The effect of `suffix(re) = ""` for a `TRegexp` without metacharacters: the
leftmost occurrence of the pattern is cut out; without an occurrence the
string is unchanged. -/
def eraseFirstMatch (pat : List Char) : List Char → List Char
  | [] => []
  | c :: cs =>
    if pat.isPrefixOf (c :: cs) then (c :: cs).drop pat.length
    else c :: eraseFirstMatch pat cs

/-- The routine `getSuffixFromDirectory(dir)`, the same in both drivers. -/
def getSuffixFromDirectory (dir : String) : String :=
  let suffix := String.mk (eraseFirstMatch "l1ExtraTreeProducer".data dir.data)
  if suffix = "" then dir else suffix

/-! ## The matcher (DeltaR_Matcher.h, Matcher.h)

The headers declare the matcher and document it; the bodies of the setters,
of the cut checks and of `getMatchingPairs` live in `DeltaR_Matcher.cc`, which
is not among the sources.  They are modelled from the specification
(sections 4.1 and 4.2) and the header documentation. -/

/-- The data members of `DeltaR_Matcher` (with those of its base `Matcher`):
the matching radius, the cuts, and the two stored jet pools. -/
structure DeltaR_Matcher where
  maxDeltaR_ : ℚ
  minRefJetPt_ : ℚ
  maxRefJetPt_ : ℚ
  minL1JetPt_ : ℚ
  maxL1JetPt_ : ℚ
  maxJetEta_ : ℚ
  refJets_ : List TLorentzVector
  l1Jets_ : List TLorentzVector

/-- The accessor `Matcher::getRefJets`. -/
def getRefJets (m : DeltaR_Matcher) : List TLorentzVector :=
  m.refJets_

/-- The accessor `Matcher::getL1Jets`. -/
def getL1Jets (m : DeltaR_Matcher) : List TLorentzVector :=
  m.l1Jets_

/-- The comparator `DeltaR_Matcher::sortPtDescending`. -/
def sortPtDescending (a b : TLorentzVector) : Bool :=
  decide (a.pt > b.pt)

/-- Modelled from the spec: the body of `checkJetMinPt` is missing; the header
documents it as "Check if jet pT >= minPt" and the spec as `minPt ≤ pt`. -/
def checkJetMinPt (jet : TLorentzVector) (minPt : ℚ) : Bool :=
  decide (jet.pt ≥ minPt)

/-- Modelled from the spec: the body of `checkJetMaxPt` is missing; the header
documents it as "Check if jet pT <= maxPt" and the spec as `pt ≤ maxPt`. -/
def checkJetMaxPt (jet : TLorentzVector) (maxPt : ℚ) : Bool :=
  decide (jet.pt ≤ maxPt)

/-- Modelled from the spec: the body of `checkJetMaxEta` is missing; the header
documents it as "Check if abs(eta) of jet <= maxEta" and the spec as
`|eta| ≤ maxAbsEta`. -/
def checkJetMaxEta (jet : TLorentzVector) (maxEta : ℚ) : Bool :=
  decide (|jet.eta| ≤ maxEta)

/-- Modelled from the spec: the body of `checkRefJet` is missing; a reference
jet passes when it passes the three cuts of its role. -/
def checkRefJet (m : DeltaR_Matcher) (jet : TLorentzVector) : Bool :=
  checkJetMinPt jet m.minRefJetPt_ && checkJetMaxPt jet m.maxRefJetPt_
    && checkJetMaxEta jet m.maxJetEta_

/-- Modelled from the spec: the body of `checkL1Jet` is missing; an L1 jet
passes when it passes the three cuts of its role. -/
def checkL1Jet (m : DeltaR_Matcher) (jet : TLorentzVector) : Bool :=
  checkJetMinPt jet m.minL1JetPt_ && checkJetMaxPt jet m.maxL1JetPt_
    && checkJetMaxEta jet m.maxJetEta_

/-- Modelled from the spec: the sort of the setters is missing; the spec asks
for descending pt, ties kept in input order.  An earlier jet goes in front of
every sorted jet that `sortPtDescending` does not put before it. -/
def sortJets (jets : List TLorentzVector) : List TLorentzVector :=
  jets.insertionSort (fun a b => sortPtDescending b a = false)

/-- Modelled from the spec: the body of `setRefJets` is missing; it keeps the
jets that pass the reference cuts, sorts them by descending pt and stores them
in place of the previous reference pool. -/
def setRefJets (m : DeltaR_Matcher) (refJets : List TLorentzVector) : DeltaR_Matcher :=
  { m with refJets_ := sortJets (refJets.filter (checkRefJet m)) }

/-- Modelled from the spec: the body of `setL1Jets` is missing; it keeps the
jets that pass the L1 cuts, sorts them by descending pt and stores them in
place of the previous L1 pool. -/
def setL1Jets (m : DeltaR_Matcher) (l1Jets : List TLorentzVector) : DeltaR_Matcher :=
  { m with l1Jets_ := sortJets (l1Jets.filter (checkL1Jet m)) }

/-- A pair emitted by the matching loop, with the positions of its two jets in
the stored pools. -/
structure Selection where
  refIndex : Nat
  l1Index : Nat
  pair : MatchedPair

/-- Modelled from the spec: step 2 of `getMatchingPairs`, whose body is
missing.  Among the available references (each with its position) select one
of minimal separation from the candidate; of equidistant references the first
met wins. -/
def closestRef (K : Kinematics) (l1 : TLorentzVector) :
    List (Nat × TLorentzVector) → Option (Nat × TLorentzVector)
  | [] => none
  | p :: rest =>
    match closestRef K l1 rest with
    | none => some p
    | some q => if K.DeltaR q.2 l1 < K.DeltaR p.2 l1 then some q else some p

/-- Modelled from the spec: steps 2-4 of `getMatchingPairs`, whose body is
missing.  Candidates are taken in pool order, `c` being the position of the
next one; a candidate whose closest available reference is strictly nearer
than `maxDeltaR` is paired with it and the reference leaves the available
set; otherwise the candidate is left unmatched. -/
def matchLoop (K : Kinematics) (maxDeltaR : ℚ) :
    Nat → List TLorentzVector → List (Nat × TLorentzVector) → List Selection
  | _, [], _ => []
  | c, l1 :: rest, available =>
    match closestRef K l1 available with
    | some p =>
      if K.DeltaR p.2 l1 < maxDeltaR then
        ⟨p.1, c, ⟨p.2, l1⟩⟩
          :: matchLoop K maxDeltaR (c + 1) rest (available.filter (fun q => q.1 ≠ p.1))
      else matchLoop K maxDeltaR (c + 1) rest available
    | none => matchLoop K maxDeltaR (c + 1) rest available

/-- Modelled from the spec: the matching loop of `getMatchingPairs` on the
stored pools, every reference available at the start. -/
def matchSelections (K : Kinematics) (m : DeltaR_Matcher) : List Selection :=
  matchLoop K m.maxDeltaR_ 0 m.l1Jets_ m.refJets_.enum

/-- Modelled from the spec: the body of `DeltaR_Matcher::getMatchingPairs` is
missing; it returns the pairs emitted by the matching loop, in the order of
candidate processing. -/
def getMatchingPairs (K : Kinematics) (m : DeltaR_Matcher) : List MatchedPair :=
  (matchSelections K m).map (fun s => s.pair)

/-! ## Concrete data -/

/-- The eta bin edges configured in `main`: a `std::vector<float>` initialised
from these literals. -/
def mainEtaBins : List ℚ :=
  [0, 0.348, 0.695, 1.044, 1.392, 1.74, 2.172, 3.0, 3.5, 4.0, 4.5, 5.001].map toFloat

/-- The first three edges of `main`, `0.0f, 0.348f, 0.695f`: a table of two
bins. -/
def scenarioEtaBins : List ℚ :=
  [0, 0.348, 0.695].map toFloat

/-- A transfer function with constant scale factor `c` and fit range `(lo, hi)`. -/
def constTF1 (c lo hi : ℚ) : TF1 :=
  ⟨fun _ => c, lo, hi⟩

/-- Rational stand-ins for the accessors of `Kinematics`, to run the routines
on concrete jets: `Et` of a massless jet, the sum of the eta and phi gaps for
`DeltaR`, the plain phi difference for `DeltaPhi`. -/
def gapKinematics : Kinematics :=
  ⟨fun jet => jet.pt, fun a b => |a.eta - b.eta| + |a.phi - b.phi|, fun a b => a.phi - b.phi⟩

/-- The matcher built in `main` of `RunMatcher.cpp`, before any jets are set. -/
def mainMatcher : DeltaR_Matcher :=
  ⟨0.7, 14, 500, 0, 500, 5, [], []⟩

/-! ## Rounding to single precision -/

/-- Rounding never goes below the integer part. -/
theorem floor_le_roundHalfEven (q : ℚ) : ⌊q⌋ ≤ roundHalfEven q := by
  unfold roundHalfEven
  split_ifs <;> omega

/-- An integer at most `q` is at most the rounding of `q`. -/
theorem le_roundHalfEven {q : ℚ} {n : ℤ} (h : (n : ℚ) ≤ q) : n ≤ roundHalfEven q :=
  le_trans (Int.le_floor.mpr h) (floor_le_roundHalfEven q)

/-- An integer at least `q` is at least the rounding of `q`. -/
theorem roundHalfEven_le {q : ℚ} {n : ℤ} (h : q ≤ (n : ℚ)) : roundHalfEven q ≤ n := by
  have hfl : (⌊q⌋ : ℚ) ≤ q := Int.floor_le q
  have h1 : ⌊q⌋ ≤ n := by exact_mod_cast le_trans hfl h
  have h2 : 1 / 2 ≤ q - ⌊q⌋ → ⌊q⌋ + 1 ≤ n := by
    intro hhalf
    have hlt : (⌊q⌋ : ℚ) < n := by linarith
    have : ⌊q⌋ < n := by exact_mod_cast hlt
    omega
  unfold roundHalfEven
  split_ifs with ha hb hc
  · exact h1
  · exact h2 (le_of_lt hb)
  · exact h1
  · exact h2 (not_lt.mp ha)

/-- A rational within one half of an integer rounds to it. -/
theorem roundHalfEven_eq_of_near {q : ℚ} {n : ℤ} (h : |q - n| < 1 / 2) :
    roundHalfEven q = n := by
  rw [abs_lt] at h
  rcases le_or_lt (n : ℚ) q with hle | hlt
  · have hfloor : ⌊q⌋ = n := Int.floor_eq_iff.mpr ⟨hle, by linarith⟩
    unfold roundHalfEven
    rw [hfloor, if_pos (by linarith)]
  · have hfloor : ⌊q⌋ = n - 1 := Int.floor_eq_iff.mpr ⟨by push_cast; linarith, by push_cast; linarith⟩
    unfold roundHalfEven
    rw [hfloor]
    have h1 : ¬ (q - ((n - 1 : ℤ) : ℚ) < 1 / 2) := by push_cast; linarith
    have h2 : 1 / 2 < q - ((n - 1 : ℤ) : ℚ) := by push_cast; linarith
    rw [if_neg h1, if_pos h2]
    omega

/-- Rounding moves a rational by at most one half. -/
theorem abs_sub_roundHalfEven_le (q : ℚ) : |q - roundHalfEven q| ≤ 1 / 2 := by
  have h1 : (⌊q⌋ : ℚ) ≤ q := Int.floor_le q
  have h2 : q < ⌊q⌋ + 1 := Int.lt_floor_add_one q
  rw [abs_le]
  unfold roundHalfEven
  split_ifs with ha hb hc
  · constructor <;> linarith
  · push_cast
    constructor <;> linarith
  · have heq : q - ⌊q⌋ = 1 / 2 := le_antisymm (not_lt.mp hb) (not_lt.mp ha)
    constructor <;> linarith
  · have heq : q - ⌊q⌋ = 1 / 2 := le_antisymm (not_lt.mp hb) (not_lt.mp ha)
    push_cast
    constructor <;> linarith

/-- Rounding is monotone. -/
theorem roundHalfEven_mono {q r : ℚ} (h : q ≤ r) : roundHalfEven q ≤ roundHalfEven r := by
  have hfl : ⌊q⌋ ≤ ⌊r⌋ := Int.floor_mono h
  rcases lt_or_eq_of_le hfl with hlt | heq
  · have h1 : roundHalfEven q ≤ ⌊q⌋ + 1 := by
      unfold roundHalfEven
      split_ifs <;> omega
    have h2 := floor_le_roundHalfEven r
    omega
  · unfold roundHalfEven
    rw [heq]
    split_ifs with a1 a2 a3 a4 a5 a6 a7 a8 <;> first | omega | (exfalso; linarith)

/-- The unit in the last place is a power of two, hence positive. -/
theorem ulp_pos (x : ℚ) : (0 : ℚ) < 2 ^ ulpExponent x := by
  positivity

/-- Narrowing a value that is not negative gives a value that is not negative. -/
theorem toFloat_nonneg {x : ℚ} (h : 0 ≤ x) : 0 ≤ toFloat x := by
  unfold toFloat
  have hq : ((0 : ℤ) : ℚ) ≤ x / 2 ^ ulpExponent x := by
    simpa using div_nonneg h (le_of_lt (ulp_pos x))
  have := le_roundHalfEven hq
  exact mul_nonneg (by exact_mod_cast this) (le_of_lt (ulp_pos x))

/-- Narrowing a value that is not positive gives a value that is not positive. -/
theorem toFloat_nonpos {x : ℚ} (h : x ≤ 0) : toFloat x ≤ 0 := by
  unfold toFloat
  have hq : x / 2 ^ ulpExponent x ≤ ((0 : ℤ) : ℚ) := by
    simpa using div_nonpos_of_nonpos_of_nonneg h (le_of_lt (ulp_pos x))
  have := roundHalfEven_le hq
  exact mul_nonpos_of_nonpos_of_nonneg (by exact_mod_cast this) (le_of_lt (ulp_pos x))

/-- The unit in the last place of a value in the binade `[2^E, 2^(E+1))`. -/
theorem ulpExponent_of_binade {x : ℚ} {E : ℤ} (h1 : (2 : ℚ) ^ E ≤ |x|)
    (h2 : |x| < (2 : ℚ) ^ (E + 1)) : ulpExponent x = max E (-126) - 23 := by
  have hpos : 0 < |x| := lt_of_lt_of_le (by positivity) h1
  have ha : E ≤ Int.log 2 |x| := (Int.zpow_le_iff_le_log (by norm_num) hpos).mp (by exact_mod_cast h1)
  have hb : Int.log 2 |x| < E + 1 := (Int.lt_zpow_iff_log_lt (by norm_num) hpos).mp (by exact_mod_cast h2)
  have : Int.log 2 |x| = E := by omega
  unfold ulpExponent
  rw [this]

/-- Evaluation of the narrowing: in the binade `[2^E, 2^(E+1))`, a value whose
quotient by the unit `2^(E-23)` is within one half of the integer `m` narrows
to `m * 2^(E-23)`. -/
theorem toFloat_eq_of_near (x : ℚ) (E m : ℤ) (h1 : (2 : ℚ) ^ E ≤ |x|)
    (h2 : |x| < (2 : ℚ) ^ (E + 1)) (hE : -126 ≤ E)
    (hm : |x / 2 ^ (E - 23) - m| < 1 / 2) : toFloat x = m * 2 ^ (E - 23) := by
  have hu : ulpExponent x = E - 23 := by
    rw [ulpExponent_of_binade h1 h2, max_eq_left hE]
  unfold toFloat
  rw [hu, roundHalfEven_eq_of_near hm]

/-- Zero narrows to zero. -/
theorem toFloat_zero : toFloat 0 = 0 := by
  simp [toFloat, roundHalfEven]

/-- Narrowing is monotone on values that are not negative. -/
theorem toFloat_mono_nonneg {x y : ℚ} (hx : 0 ≤ x) (hxy : x ≤ y) : toFloat x ≤ toFloat y := by
  rcases eq_or_lt_of_le hx with h0 | hpos
  · rw [← h0, toFloat_zero]
    exact toFloat_nonneg (le_trans hx hxy)
  · have hy : 0 < y := lt_of_lt_of_le hpos hxy
    have hlog : Int.log 2 |x| ≤ Int.log 2 |y| := by
      rw [abs_of_pos hpos, abs_of_pos hy]
      exact Int.log_mono_right hpos hxy
    have hexp : ulpExponent x ≤ ulpExponent y := by
      unfold ulpExponent
      omega
    rcases lt_or_eq_of_le hexp with hlt | heq
    · have hLy : ulpExponent y = Int.log 2 |y| - 23 := by
        unfold ulpExponent at hlt ⊢
        omega
      have hxu : x / 2 ^ ulpExponent x ≤ (((2 : ℤ) ^ 24 : ℤ) : ℚ) := by
        rw [div_le_iff₀ (ulp_pos x)]
        have hlt2 : x < (2 : ℚ) ^ (Int.log 2 |x| + 1) := by
          have := @Int.lt_zpow_succ_log_self ℚ _ _ 2 (by norm_num) |x|
          rw [abs_of_pos hpos] at this ⊢
          exact_mod_cast this
        have hle : (2 : ℚ) ^ (Int.log 2 |x| + 1) ≤ 2 ^ (ulpExponent x + 24) := by
          apply zpow_le_zpow_right₀ (by norm_num)
          unfold ulpExponent
          omega
        have hsplit : (2 : ℚ) ^ (ulpExponent x + 24) = ((2 : ℤ) ^ 24 : ℤ) * 2 ^ ulpExponent x := by
          rw [zpow_add₀ (by norm_num)]
          push_cast
          ring
        linarith
      have hyu : (((2 : ℤ) ^ 23 : ℤ) : ℚ) ≤ y / 2 ^ ulpExponent y := by
        rw [le_div_iff₀ (ulp_pos y)]
        have hge : (2 : ℚ) ^ Int.log 2 |y| ≤ y := by
          have := @Int.zpow_log_le_self ℚ _ _ 2 |y| (by norm_num) (by rw [abs_of_pos hy]; exact hy)
          rw [abs_of_pos hy] at this ⊢
          exact_mod_cast this
        have hsplit : (2 : ℚ) ^ Int.log 2 |y| = ((2 : ℤ) ^ 23 : ℤ) * 2 ^ ulpExponent y := by
          rw [hLy]
          have : Int.log 2 |y| = 23 + (Int.log 2 |y| - 23) := by omega
          conv_lhs => rw [this]
          rw [zpow_add₀ (by norm_num)]
          push_cast
          norm_num
        linarith
      have hrx : (roundHalfEven (x / 2 ^ ulpExponent x) : ℚ) ≤ (((2 : ℤ) ^ 24 : ℤ) : ℚ) := by
        exact_mod_cast roundHalfEven_le hxu
      have hry : (((2 : ℤ) ^ 23 : ℤ) : ℚ) ≤ (roundHalfEven (y / 2 ^ ulpExponent y) : ℚ) := by
        exact_mod_cast le_roundHalfEven hyu
      have hstep : (((2 : ℤ) ^ 24 : ℤ) : ℚ) * 2 ^ ulpExponent x
          ≤ (((2 : ℤ) ^ 23 : ℤ) : ℚ) * 2 ^ ulpExponent y := by
        have h3 : (2 : ℚ) ^ (ulpExponent x + 1) ≤ 2 ^ ulpExponent y :=
          zpow_le_zpow_right₀ (by norm_num) (by omega)
        rw [zpow_add₀ (by norm_num)] at h3
        push_cast
        have := ulp_pos x
        nlinarith
      unfold toFloat
      calc (roundHalfEven (x / 2 ^ ulpExponent x) : ℚ) * 2 ^ ulpExponent x
          ≤ (((2 : ℤ) ^ 24 : ℤ) : ℚ) * 2 ^ ulpExponent x :=
            mul_le_mul_of_nonneg_right hrx (le_of_lt (ulp_pos x))
        _ ≤ (((2 : ℤ) ^ 23 : ℤ) : ℚ) * 2 ^ ulpExponent y := hstep
        _ ≤ (roundHalfEven (y / 2 ^ ulpExponent y) : ℚ) * 2 ^ ulpExponent y :=
            mul_le_mul_of_nonneg_right hry (le_of_lt (ulp_pos y))
    · unfold toFloat
      rw [← heq]
      have hq : x / 2 ^ ulpExponent x ≤ y / 2 ^ ulpExponent x :=
        div_le_div_of_nonneg_right hxy (le_of_lt (ulp_pos x))
      have := roundHalfEven_mono hq
      exact mul_le_mul_of_nonneg_right (by exact_mod_cast this) (le_of_lt (ulp_pos x))

/-- The narrowing moves a value by at most half a unit in the last place. -/
theorem abs_toFloat_sub_le (x : ℚ) : |toFloat x - x| ≤ 2 ^ ulpExponent x / 2 := by
  have h := abs_sub_roundHalfEven_le (x / 2 ^ ulpExponent x)
  have hu := ulp_pos x
  have hq : x / 2 ^ ulpExponent x * 2 ^ ulpExponent x = x := div_mul_cancel₀ x (ne_of_gt hu)
  have hkey : toFloat x - x
      = ((roundHalfEven (x / 2 ^ ulpExponent x) : ℚ) - x / 2 ^ ulpExponent x)
          * 2 ^ ulpExponent x := by
    unfold toFloat
    rw [sub_mul, hq]
  rw [hkey, abs_mul, abs_of_pos hu, abs_sub_comm]
  calc |x / 2 ^ ulpExponent x - (roundHalfEven (x / 2 ^ ulpExponent x) : ℚ)| * 2 ^ ulpExponent x
      ≤ 1 / 2 * 2 ^ ulpExponent x := mul_le_mul_of_nonneg_right h (le_of_lt hu)
    _ = 2 ^ ulpExponent x / 2 := by ring

/-- For a value of normal size the narrowing has relative error at most
`2^-24`. -/
theorem abs_toFloat_sub_le_rel {x : ℚ} (hx : (2 : ℚ) ^ (-126 : ℤ) ≤ |x|) :
    |toFloat x - x| ≤ |x| / 2 ^ 24 := by
  have hpos : 0 < |x| := lt_of_lt_of_le (by positivity) hx
  have hlog : (-126 : ℤ) ≤ Int.log 2 |x| :=
    (Int.zpow_le_iff_le_log (by norm_num) hpos).mp (by exact_mod_cast hx)
  have hu : ulpExponent x = Int.log 2 |x| - 23 := by
    unfold ulpExponent
    omega
  have hle : (2 : ℚ) ^ Int.log 2 |x| ≤ |x| := by
    exact_mod_cast @Int.zpow_log_le_self ℚ _ _ 2 |x| (by norm_num) hpos
  have hsplit : (2 : ℚ) ^ ulpExponent x = 2 ^ Int.log 2 |x| / 2 ^ 23 := by
    rw [hu, zpow_sub₀ (by norm_num)]
    norm_num
  have h := abs_toFloat_sub_le x
  rw [hsplit] at h
  calc |toFloat x - x| ≤ 2 ^ Int.log 2 |x| / 2 ^ 23 / 2 := h
    _ = 2 ^ Int.log 2 |x| / 2 ^ 24 := by ring
    _ ≤ |x| / 2 ^ 24 := div_le_div_of_nonneg_right hle (by positivity)

/-! ## Single-precision values of the numbers used below -/

/-- The number 0.348 narrows to `5838471 / 16777216`. -/
theorem toFloat_87_250 : toFloat (87 / 250) = 5838471 / 16777216 := by
  rw [toFloat_eq_of_near (87 / 250) (-2) 11676942 (by norm_num [abs_of_pos, abs_of_neg])
    (by norm_num [abs_of_pos, abs_of_neg]) (by norm_num) (by norm_num [abs_lt])]
  norm_num

/-- The number 0.695 narrows to `11660165 / 16777216`. -/
theorem toFloat_139_200 : toFloat (139 / 200) = 11660165 / 16777216 := by
  rw [toFloat_eq_of_near (139 / 200) (-1) 11660165 (by norm_num [abs_of_pos, abs_of_neg])
    (by norm_num [abs_of_pos, abs_of_neg]) (by norm_num) (by norm_num [abs_lt])]
  norm_num

/-- The number 1.044 narrows to `8757707 / 8388608`. -/
theorem toFloat_261_250 : toFloat (261 / 250) = 8757707 / 8388608 := by
  rw [toFloat_eq_of_near (261 / 250) 0 8757707 (by norm_num [abs_of_pos, abs_of_neg])
    (by norm_num [abs_of_pos, abs_of_neg]) (by norm_num) (by norm_num [abs_lt])]
  norm_num

/-- The number 1.392 narrows to `5838471 / 4194304`. -/
theorem toFloat_174_125 : toFloat (174 / 125) = 5838471 / 4194304 := by
  rw [toFloat_eq_of_near (174 / 125) 0 11676942 (by norm_num [abs_of_pos, abs_of_neg])
    (by norm_num [abs_of_pos, abs_of_neg]) (by norm_num) (by norm_num [abs_lt])]
  norm_num

/-- The number 1.74 narrows to `7298089 / 4194304`. -/
theorem toFloat_87_50 : toFloat (87 / 50) = 7298089 / 4194304 := by
  rw [toFloat_eq_of_near (87 / 50) 0 14596178 (by norm_num [abs_of_pos, abs_of_neg])
    (by norm_num [abs_of_pos, abs_of_neg]) (by norm_num) (by norm_num [abs_lt])]
  norm_num

/-- The number 2.172 narrows to `2277507 / 1048576`. -/
theorem toFloat_543_250 : toFloat (543 / 250) = 2277507 / 1048576 := by
  rw [toFloat_eq_of_near (543 / 250) 1 9110028 (by norm_num [abs_of_pos, abs_of_neg])
    (by norm_num [abs_of_pos, abs_of_neg]) (by norm_num) (by norm_num [abs_lt])]
  norm_num

/-- The number 3.0 is a single-precision value. -/
theorem toFloat_3 : toFloat 3 = 3 := by
  rw [toFloat_eq_of_near 3 1 12582912 (by norm_num [abs_of_pos, abs_of_neg])
    (by norm_num [abs_of_pos, abs_of_neg]) (by norm_num) (by norm_num [abs_lt])]
  norm_num

/-- The number 3.5 is a single-precision value. -/
theorem toFloat_7_2 : toFloat (7 / 2) = 7 / 2 := by
  rw [toFloat_eq_of_near (7 / 2) 1 14680064 (by norm_num [abs_of_pos, abs_of_neg])
    (by norm_num [abs_of_pos, abs_of_neg]) (by norm_num) (by norm_num [abs_lt])]
  norm_num

/-- The number 4.0 is a single-precision value. -/
theorem toFloat_4 : toFloat 4 = 4 := by
  rw [toFloat_eq_of_near 4 2 8388608 (by norm_num [abs_of_pos, abs_of_neg])
    (by norm_num [abs_of_pos, abs_of_neg]) (by norm_num) (by norm_num [abs_lt])]
  norm_num

/-- The number 4.5 is a single-precision value. -/
theorem toFloat_9_2 : toFloat (9 / 2) = 9 / 2 := by
  rw [toFloat_eq_of_near (9 / 2) 2 9437184 (by norm_num [abs_of_pos, abs_of_neg])
    (by norm_num [abs_of_pos, abs_of_neg]) (by norm_num) (by norm_num [abs_lt])]
  norm_num

/-- The number 5.001 narrows to `10487857 / 2097152`. -/
theorem toFloat_5001_1000 : toFloat (5001 / 1000) = 10487857 / 2097152 := by
  rw [toFloat_eq_of_near (5001 / 1000) 2 10487857 (by norm_num [abs_of_pos, abs_of_neg])
    (by norm_num [abs_of_pos, abs_of_neg]) (by norm_num) (by norm_num [abs_lt])]
  norm_num

/-- The number 5.1 narrows to `10695475 / 2097152`. -/
theorem toFloat_51_10 : toFloat (51 / 10) = 10695475 / 2097152 := by
  rw [toFloat_eq_of_near (51 / 10) 2 10695475 (by norm_num [abs_of_pos, abs_of_neg])
    (by norm_num [abs_of_pos, abs_of_neg]) (by norm_num) (by norm_num [abs_lt])]
  norm_num

/-- The number 0.5 is a single-precision value. -/
theorem toFloat_1_2 : toFloat (1 / 2) = 1 / 2 := by
  rw [toFloat_eq_of_near (1 / 2) (-1) 8388608 (by norm_num [abs_of_pos, abs_of_neg])
    (by norm_num [abs_of_pos, abs_of_neg]) (by norm_num) (by norm_num [abs_lt])]
  norm_num

/-- The number 0.25 is a single-precision value. -/
theorem toFloat_1_4 : toFloat (1 / 4) = 1 / 4 := by
  rw [toFloat_eq_of_near (1 / 4) (-2) 8388608 (by norm_num [abs_of_pos, abs_of_neg])
    (by norm_num [abs_of_pos, abs_of_neg]) (by norm_num) (by norm_num [abs_lt])]
  norm_num

/-- The number 30 is a single-precision value. -/
theorem toFloat_30 : toFloat 30 = 30 := by
  rw [toFloat_eq_of_near 30 4 15728640 (by norm_num [abs_of_pos, abs_of_neg])
    (by norm_num [abs_of_pos, abs_of_neg]) (by norm_num) (by norm_num [abs_lt])]
  norm_num

/-- The number 60 is a single-precision value. -/
theorem toFloat_60 : toFloat 60 = 60 := by
  rw [toFloat_eq_of_near 60 5 15728640 (by norm_num [abs_of_pos, abs_of_neg])
    (by norm_num [abs_of_pos, abs_of_neg]) (by norm_num) (by norm_num [abs_lt])]
  norm_num

/-- The number 90 is a single-precision value. -/
theorem toFloat_90 : toFloat 90 = 90 := by
  rw [toFloat_eq_of_near 90 6 11796480 (by norm_num [abs_of_pos, abs_of_neg])
    (by norm_num [abs_of_pos, abs_of_neg]) (by norm_num) (by norm_num [abs_lt])]
  norm_num

/-- The number 1000 is a single-precision value. -/
theorem toFloat_1000 : toFloat 1000 = 1000 := by
  rw [toFloat_eq_of_near 1000 9 16384000 (by norm_num [abs_of_pos, abs_of_neg])
    (by norm_num [abs_of_pos, abs_of_neg]) (by norm_num) (by norm_num [abs_lt])]
  norm_num

/-- The number 30.3 narrows to `7942963 / 262144`. -/
theorem toFloat_303_10 : toFloat (303 / 10) = 7942963 / 262144 := by
  rw [toFloat_eq_of_near (303 / 10) 4 15885926 (by norm_num [abs_of_pos, abs_of_neg])
    (by norm_num [abs_of_pos, abs_of_neg]) (by norm_num) (by norm_num [abs_lt])]
  norm_num

/-- The edges of the two-bin table as single-precision values. -/
theorem scenarioEtaBins_eq :
    scenarioEtaBins = [0, 5838471 / 16777216, 11660165 / 16777216] := by
  norm_num [scenarioEtaBins, toFloat_zero, toFloat_87_250, toFloat_139_200]

/-- The edges of `main` as single-precision values. -/
theorem mainEtaBins_eq :
    mainEtaBins = [0, 5838471 / 16777216, 11660165 / 16777216, 8757707 / 8388608,
      5838471 / 4194304, 7298089 / 4194304, 2277507 / 1048576, 3, 7 / 2, 4, 9 / 2,
      10487857 / 2097152] := by
  norm_num [mainEtaBins, toFloat_zero, toFloat_87_250, toFloat_139_200, toFloat_261_250,
    toFloat_174_125, toFloat_87_50, toFloat_543_250, toFloat_3, toFloat_7_2, toFloat_4,
    toFloat_9_2, toFloat_5001_1000]

/-! ## The binary search on ascending edges -/

/-- The loop of `std::lower_bound` halves `len` at every turn, so any bound of
at least `len` turns gives the same result: the bound `xs.length` used by
`lowerBound` never cuts the search short, sorted input or not. -/
theorem lowerBoundLoop_fuel (xs : List ℚ) (val : ℚ) :
    ∀ (fuel fuel2 first len : Nat), len ≤ fuel → len ≤ fuel2 →
      lowerBoundLoop xs val fuel first len = lowerBoundLoop xs val fuel2 first len := by
  intro fuel
  induction fuel with
  | zero =>
    intro fuel2 first len h1 _
    have h0 : len = 0 := Nat.le_zero.mp h1
    subst h0
    cases fuel2 <;> simp [lowerBoundLoop]
  | succ fuel ih =>
    intro fuel2 first len h1 h2
    by_cases h0 : len = 0
    · subst h0
      cases fuel2 <;> simp [lowerBoundLoop]
    · cases fuel2 with
      | zero => exact absurd (Nat.le_zero.mp h2) h0
      | succ fuel2 =>
        have hhalf : len / 2 < len := Nat.div_lt_self (Nat.pos_of_ne_zero h0) (by decide)
        simp only [lowerBoundLoop, h0, if_false]
        split_ifs
        · exact ih fuel2 _ _ (by omega) (by omega)
        · exact ih fuel2 _ _ (by omega) (by omega)

/-- In an ascending list, an earlier entry is at most a later one. -/
theorem ascending_getElem? {xs : List ℚ} (hasc : xs.Pairwise (· ≤ ·)) {i j : Nat} {a b : ℚ}
    (hij : i ≤ j) (ha : xs[i]? = some a) (hb : xs[j]? = some b) : a ≤ b := by
  rcases Nat.eq_or_lt_of_le hij with h | h
  · subst h
    rw [ha] at hb
    exact le_of_eq (Option.some.inj hb)
  · obtain ⟨hi, rfl⟩ := List.getElem?_eq_some.mp ha
    obtain ⟨hj, rfl⟩ := List.getElem?_eq_some.mp hb
    exact (List.pairwise_iff_getElem.mp hasc) i j hi hj h

/-- Invariant of the `std::lower_bound` loop on an ascending list: entries
before `first` are below `val`, entries from `first + len` on are not, and the
returned offset separates the two kinds. -/
theorem lowerBoundLoop_spec {xs : List ℚ} (hasc : xs.Pairwise (· ≤ ·)) (val : ℚ) :
    ∀ (fuel first len : Nat), len ≤ fuel → first + len ≤ xs.length →
      (∀ i a, i < first → xs[i]? = some a → a < val) →
      (∀ i a, first + len ≤ i → xs[i]? = some a → val ≤ a) →
      lowerBoundLoop xs val fuel first len ≤ xs.length ∧
      (∀ i a, i < lowerBoundLoop xs val fuel first len → xs[i]? = some a → a < val) ∧
      (∀ i a, lowerBoundLoop xs val fuel first len ≤ i → xs[i]? = some a → val ≤ a) := by
  intro fuel
  induction fuel with
  | zero =>
    intro first len hlen hbound hlo hhi
    have h0 : len = 0 := Nat.le_zero.mp hlen
    subst h0
    exact ⟨by simpa [lowerBoundLoop] using hbound, by simpa [lowerBoundLoop] using hlo,
      by simpa [lowerBoundLoop] using hhi⟩
  | succ fuel ih =>
    intro first len hlen hbound hlo hhi
    by_cases h0 : len = 0
    · subst h0
      exact ⟨by simpa [lowerBoundLoop] using hbound, by simpa [lowerBoundLoop] using hlo,
        by simpa [lowerBoundLoop] using hhi⟩
    · have hhalf : len / 2 < len := Nat.div_lt_self (Nat.pos_of_ne_zero h0) (by decide)
      have hmid : first + len / 2 < xs.length := by omega
      have hget : xs[first + len / 2]? = some xs[first + len / 2] := List.getElem?_eq_getElem hmid
      by_cases hcmp : xs[first + len / 2] < val
      · have hstep : lowerBoundLoop xs val (fuel + 1) first len
            = lowerBoundLoop xs val fuel (first + len / 2 + 1) (len - len / 2 - 1) := by
          simp [lowerBoundLoop, h0, hget, hcmp]
        rw [hstep]
        apply ih
        · omega
        · omega
        · intro i a hi ha
          exact lt_of_le_of_lt (ascending_getElem? hasc (by omega) ha hget) hcmp
        · intro i a hi ha
          exact hhi i a (by omega) ha
      · have hstep : lowerBoundLoop xs val (fuel + 1) first len
            = lowerBoundLoop xs val fuel first (len / 2) := by
          simp [lowerBoundLoop, h0, hget, hcmp]
        rw [hstep]
        apply ih
        · omega
        · omega
        · exact hlo
        · intro i a hi ha
          exact le_trans (not_lt.mp hcmp) (ascending_getElem? hasc hi hget ha)

/-- On an ascending list `std::lower_bound` returns the offset of the first
entry that is not below `val` (the length when there is none). -/
theorem lowerBound_spec {xs : List ℚ} (hasc : xs.Pairwise (· ≤ ·)) (val : ℚ) :
    lowerBound xs val ≤ xs.length ∧
    (∀ i a, i < lowerBound xs val → xs[i]? = some a → a < val) ∧
    (∀ i a, lowerBound xs val ≤ i → xs[i]? = some a → val ≤ a) := by
  unfold lowerBound
  apply lowerBoundLoop_spec hasc val xs.length 0 xs.length (le_refl _) (by omega)
  · intro i a hi
    exact absurd hi (Nat.not_lt_zero i)
  · intro i a hi ha
    have := (List.getElem?_eq_some.mp ha).1
    omega

/-- An entry below `val` followed by one that is not pins the result of
`std::lower_bound` to the position between them. -/
theorem lowerBound_between {xs : List ℚ} (hasc : xs.Pairwise (· ≤ ·)) {val lo hi : ℚ} {i : Nat}
    (hlo : xs[i]? = some lo) (hhi : xs[i + 1]? = some hi) (h1 : lo < val) (h2 : val ≤ hi) :
    lowerBound xs val = i + 1 := by
  obtain ⟨_, hbelow, habove⟩ := lowerBound_spec hasc val
  have ha : i < lowerBound xs val := by
    by_contra hcon
    exact absurd (habove i lo (not_lt.mp hcon) hlo) (not_le.mpr h1)
  have hb : lowerBound xs val ≤ i + 1 := by
    by_contra hcon
    exact absurd (hbelow (i + 1) hi (not_le.mp hcon) hhi) (not_lt.mpr h2)
  omega

/-- On a non-empty ascending list `std::lower_bound` returns `begin()` exactly
when `val` is at most the first entry. -/
theorem lowerBound_eq_zero_iff {xs : List ℚ} (hasc : xs.Pairwise (· ≤ ·)) {val e0 : ℚ}
    (h0 : xs[0]? = some e0) : lowerBound xs val = 0 ↔ val ≤ e0 := by
  obtain ⟨_, hbelow, habove⟩ := lowerBound_spec hasc val
  constructor
  · intro h
    exact habove 0 e0 (by omega) h0
  · intro h
    by_contra hcon
    exact absurd (hbelow 0 e0 (Nat.pos_of_ne_zero hcon) h0) (not_lt.mpr h)

/-! ## Machine arithmetic -/

/-- For every size that fits in a `size_t`, `sizeMinusOne` is subtraction
modulo `2^64`. -/
theorem sizeMinusOne_eq_mod (n : Nat) (hn : n < 2 ^ 64) :
    sizeMinusOne n = (n + (2 ^ 64 - 1)) % 2 ^ 64 := by
  unfold sizeMinusOne
  split <;> omega

/-- A table with one function per bin passes the size check. -/
theorem sizeMinusOne_of_size {n k : Nat} (h : n + 1 = k) : n = sizeMinusOne k := by
  unfold sizeMinusOne
  split <;> omega

/-! ## The jet loop -/

/-- With one function per bin, `correctJets` is its jet loop. -/
theorem correctJets_eq_loop (jets : List TLorentzVector) {corrFns : List TF1} {etaBins : List ℚ}
    (minPt : ℚ) (hsize : corrFns.length + 1 = etaBins.length) :
    correctJets jets corrFns etaBins minPt = correctLoop corrFns etaBins minPt jets := by
  simp [correctJets, ← sizeMinusOne_of_size hsize]

/-- The status of `correctJets` is `done` only when the jet loop ran to its end. -/
theorem correctJets_done_loop {jets : List TLorentzVector} {corrFns : List TF1}
    {etaBins : List ℚ} {minPt : ℚ}
    (hdone : (correctJets jets corrFns etaBins minPt).status = .done) :
    correctJets jets corrFns etaBins minPt = correctLoop corrFns etaBins minPt jets := by
  unfold correctJets at hdone ⊢
  split
  · rename_i h
    simp [h] at hdone
  · rfl

/-- The bin lookup fails only with a range error or an unchecked read. -/
theorem selectCorrFn_ne_error_done (corrFns : List TF1) (etaBins : List ℚ)
    (jet : TLorentzVector) : selectCorrFn corrFns etaBins jet ≠ .error .done := by
  unfold selectCorrFn
  dsimp only
  split_ifs
  · simp
  · cases corrFns[lowerBound etaBins (toFloat |jet.eta|) - 1]? <;> simp

/-- The jet loop never changes the number of jets. -/
theorem correctLoop_length (corrFns : List TF1) (etaBins : List ℚ) (minPt : ℚ) :
    ∀ jets : List TLorentzVector,
      (correctLoop corrFns etaBins minPt jets).jets.length = jets.length := by
  intro jets
  induction jets with
  | nil => simp [correctLoop]
  | cons jet rest ih =>
    unfold correctLoop
    split
    · simp [ih]
    · simp

/-- When the jet loop runs to its end, every jet had a correction function
and holds, at its position, the result of `applyCorrection` with it. -/
theorem correctLoop_done_getElem? (corrFns : List TF1) (etaBins : List ℚ) (minPt : ℚ) :
    ∀ jets : List TLorentzVector,
      (correctLoop corrFns etaBins minPt jets).status = .done →
      ∀ (k : Nat) (jet : TLorentzVector), jets[k]? = some jet →
        ∃ corrFn, selectCorrFn corrFns etaBins jet = .ok corrFn ∧
          (correctLoop corrFns etaBins minPt jets).jets[k]?
            = some (applyCorrection corrFn minPt jet) := by
  intro jets
  induction jets with
  | nil => intro _ k jet hk; simp at hk
  | cons j rest ih =>
    intro hdone k jet hk
    unfold correctLoop at hdone ⊢
    cases hsel : selectCorrFn corrFns etaBins j with
    | error e =>
      simp only [correctJet, hsel] at hdone
      have hj : correctJet corrFns etaBins minPt j = .error e := by simp [correctJet, hsel]
      simp only [hj] at hdone ⊢
      rw [hdone] at hsel
      exact absurd hsel (selectCorrFn_ne_error_done corrFns etaBins j)
    | ok corrFn =>
      have hj : correctJet corrFns etaBins minPt j = .ok (applyCorrection corrFn minPt j) := by
        simp [correctJet, hsel]
      simp only [hj] at hdone ⊢
      cases k with
      | zero =>
        simp only [List.getElem?_cons_zero, Option.some.injEq] at hk
        subst hk
        exact ⟨corrFn, hsel, by simp⟩
      | succ k =>
        simp only [List.getElem?_cons_succ] at hk ⊢
        exact ih hdone k jet hk

/-- A jet with a correction function is rewritten and the loop goes on. -/
theorem correctLoop_cons_ok {corrFns : List TF1} {etaBins : List ℚ} (minPt : ℚ)
    {jet : TLorentzVector} (rest : List TLorentzVector) {corrFn : TF1}
    (hsel : selectCorrFn corrFns etaBins jet = .ok corrFn) :
    correctLoop corrFns etaBins minPt (jet :: rest)
      = ⟨applyCorrection corrFn minPt jet :: (correctLoop corrFns etaBins minPt rest).jets,
          (correctLoop corrFns etaBins minPt rest).status⟩ := by
  simp [correctLoop, correctJet, hsel]

/-- A jet without a correction function stops the loop where it stands. -/
theorem correctLoop_cons_error {corrFns : List TF1} {etaBins : List ℚ} (minPt : ℚ)
    {jet : TLorentzVector} (rest : List TLorentzVector) {e : Status}
    (hsel : selectCorrFn corrFns etaBins jet = .error e) :
    correctLoop corrFns etaBins minPt (jet :: rest) = ⟨jet :: rest, e⟩ := by
  simp [correctLoop, correctJet, hsel]

/-! ## Bin selection on ascending edges -/

/-- On ascending edges the bin lookup throws the range error exactly for a jet
whose `|eta|`, narrowed to single precision, is at most the lowest edge. -/
theorem selectCorrFn_rangeError_iff (corrFns : List TF1) {etaBins : List ℚ}
    (hasc : etaBins.Pairwise (· ≤ ·)) {lowest : ℚ} (hlow : etaBins[0]? = some lowest)
    (jet : TLorentzVector) :
    selectCorrFn corrFns etaBins jet = .error .rangeError ↔ toFloat |jet.eta| ≤ lowest := by
  rw [← lowerBound_eq_zero_iff hasc hlow]
  unfold selectCorrFn
  dsimp only
  split_ifs with h
  · simp [h]
  · cases corrFns[lowerBound etaBins (toFloat |jet.eta|) - 1]? <;> simp [h]

/-- On ascending edges a jet whose single-precision `|eta|` satisfies
`lo < |eta| ≤ hi` for consecutive edges `lo = etaBins[i]`, `hi = etaBins[i+1]`
reads the function vector at `i`. -/
theorem selectCorrFn_between (corrFns : List TF1) {etaBins : List ℚ}
    (hasc : etaBins.Pairwise (· ≤ ·)) {i : Nat} {lo hi : ℚ}
    (hlo : etaBins[i]? = some lo) (hhi : etaBins[i + 1]? = some hi)
    {jet : TLorentzVector} (h1 : lo < toFloat |jet.eta|) (h2 : toFloat |jet.eta| ≤ hi) :
    selectCorrFn corrFns etaBins jet
      = match corrFns[i]? with
        | some corrFn => .ok corrFn
        | none => .error .undefinedRead := by
  unfold selectCorrFn
  simp [lowerBound_between hasc hlo hhi h1 h2]

/-- With one function per bin and ascending edges, a jet whose single-precision
`|eta|` is above the lowest edge and at most the highest has a correction
function. -/
theorem selectCorrFn_inRange {corrFns : List TF1} {etaBins : List ℚ}
    (hsize : corrFns.length + 1 = etaBins.length) (hasc : etaBins.Pairwise (· ≤ ·))
    {lowest top : ℚ} (hlow : etaBins[0]? = some lowest)
    (htop : etaBins[corrFns.length]? = some top)
    {jet : TLorentzVector} (h1 : lowest < toFloat |jet.eta|) (h2 : toFloat |jet.eta| ≤ top) :
    ∃ corrFn, selectCorrFn corrFns etaBins jet = .ok corrFn := by
  obtain ⟨_, hbelow, _⟩ := lowerBound_spec hasc (toFloat |jet.eta|)
  have hne : lowerBound etaBins (toFloat |jet.eta|) ≠ 0 := by
    intro h
    exact absurd ((lowerBound_eq_zero_iff hasc hlow).mp h) (not_le.mpr h1)
  have hle : lowerBound etaBins (toFloat |jet.eta|) ≤ corrFns.length := by
    by_contra hcon
    exact absurd (hbelow corrFns.length top (not_le.mp hcon) htop) (not_lt.mpr h2)
  have hidx : lowerBound etaBins (toFloat |jet.eta|) - 1 < corrFns.length := by omega
  refine ⟨corrFns[lowerBound etaBins (toFloat |jet.eta|) - 1], ?_⟩
  unfold selectCorrFn
  simp [hne, List.getElem?_eq_getElem hidx]

/-- On ascending edges with one function per bin, and jets none of which lies
above the highest edge, the jet loop stops with the range error exactly when
some jet has single-precision `|eta|` at most the lowest edge. -/
theorem correctLoop_rangeError_iff {corrFns : List TF1} {etaBins : List ℚ} (minPt : ℚ)
    (hsize : corrFns.length + 1 = etaBins.length) (hasc : etaBins.Pairwise (· ≤ ·))
    {lowest top : ℚ} (hlow : etaBins[0]? = some lowest)
    (htop : etaBins[corrFns.length]? = some top) :
    ∀ jets : List TLorentzVector, (∀ jet ∈ jets, toFloat |jet.eta| ≤ top) →
      ((correctLoop corrFns etaBins minPt jets).status = .rangeError
        ↔ ∃ jet ∈ jets, toFloat |jet.eta| ≤ lowest) := by
  intro jets
  induction jets with
  | nil => intro _; simp [correctLoop]
  | cons j rest ih =>
    intro hup
    have hrest : ∀ jet ∈ rest, toFloat |jet.eta| ≤ top := fun jet hjet =>
      hup jet (List.mem_cons_of_mem j hjet)
    by_cases hj : toFloat |j.eta| ≤ lowest
    · have hsel := (selectCorrFn_rangeError_iff corrFns hasc hlow j).mpr hj
      rw [correctLoop_cons_error minPt rest hsel]
      simp only [true_iff]
      exact ⟨j, List.mem_cons_self j rest, hj⟩
    · obtain ⟨corrFn, hsel⟩ := selectCorrFn_inRange hsize hasc hlow htop (not_le.mp hj)
        (hup j (List.mem_cons_self j rest))
      rw [correctLoop_cons_ok minPt rest hsel]
      simp only [List.mem_cons, exists_eq_or_imp, hj, false_or]
      exact ih hrest

/-- With one function per bin and ascending edges, a jet whose single-precision
`|eta|` is above the highest edge reads the function vector one past its end:
no exception is thrown for it. -/
theorem selectCorrFn_above {corrFns : List TF1} {etaBins : List ℚ}
    (hsize : corrFns.length + 1 = etaBins.length) (hasc : etaBins.Pairwise (· ≤ ·))
    {top : ℚ} (htop : etaBins[corrFns.length]? = some top)
    {jet : TLorentzVector} (h : top < toFloat |jet.eta|) :
    selectCorrFn corrFns etaBins jet = .error .undefinedRead := by
  obtain ⟨hlen, _, habove⟩ := lowerBound_spec hasc (toFloat |jet.eta|)
  have hp : lowerBound etaBins (toFloat |jet.eta|) = corrFns.length + 1 := by
    by_contra hcon
    have hle : lowerBound etaBins (toFloat |jet.eta|) ≤ corrFns.length := by omega
    exact absurd (habove corrFns.length top hle htop) (not_le.mpr h)
  unfold selectCorrFn
  simp [hp]

/-- When `correctJets` returns normally, every jet had a correction function
and holds, at its position, the result of `applyCorrection` with it. -/
theorem correctJets_done_getElem? {jets : List TLorentzVector} {corrFns : List TF1}
    {etaBins : List ℚ} {minPt : ℚ}
    (hdone : (correctJets jets corrFns etaBins minPt).status = .done)
    {k : Nat} {jet : TLorentzVector} (hk : jets[k]? = some jet) :
    ∃ corrFn, selectCorrFn corrFns etaBins jet = .ok corrFn ∧
      (correctJets jets corrFns etaBins minPt).jets[k]?
        = some (applyCorrection corrFn minPt jet) := by
  have hloop := correctJets_done_loop hdone
  rw [hloop] at hdone ⊢
  exact correctLoop_done_getElem? corrFns etaBins minPt jets hdone k jet hk

/-- When `correctJets` returns normally, the jet at a position whose bin lookup
gave `corrFn` holds the result of `applyCorrection` with `corrFn`. -/
theorem correctJets_done_apply {jets : List TLorentzVector} {corrFns : List TF1}
    {etaBins : List ℚ} {minPt : ℚ}
    (hdone : (correctJets jets corrFns etaBins minPt).status = .done)
    {k : Nat} {jet : TLorentzVector} (hk : jets[k]? = some jet) {corrFn : TF1}
    (hbin : selectCorrFn corrFns etaBins jet = .ok corrFn) :
    (correctJets jets corrFns etaBins minPt).jets[k]?
      = some (applyCorrection corrFn minPt jet) := by
  obtain ⟨f, hf, hout⟩ := correctJets_done_getElem? hdone hk
  rw [hbin] at hf
  cases hf
  exact hout

/-! ## The correction of one jet -/

/-- A jet that fails the test is returned as it is. -/
theorem applyCorrection_skip {corrFn : TF1} {minPt : ℚ} {jet : TLorentzVector}
    (h : shouldCorrect minPt corrFn.xmin corrFn.xmax jet.pt = false) :
    applyCorrection corrFn minPt jet = jet := by
  simp [applyCorrection, h]

/-- A jet whose narrowed scaled pt is outside the safeguard window is returned
as it is. -/
theorem applyCorrection_outside {corrFn : TF1} (minPt : ℚ) {jet : TLorentzVector}
    (h : 1000 ≤ toFloat (jet.pt * corrFn.eval jet.pt)
      ∨ toFloat (jet.pt * corrFn.eval jet.pt) ≤ 0) :
    applyCorrection corrFn minPt jet = jet := by
  unfold applyCorrection
  dsimp only
  split_ifs with h1 h2
  · rcases h with h | h
    · exact absurd h2.1 (not_lt.mpr h)
    · exact absurd h2.2 (not_lt.mpr h)
  · rfl
  · rfl

/-- An exact product that is at least 1000 or at most 0 narrows to a `float`
that is at least 1000 or at most 0. -/
theorem toFloat_outside {x : ℚ} (h : 1000 ≤ x ∨ x ≤ 0) :
    1000 ≤ toFloat x ∨ toFloat x ≤ 0 := by
  rcases h with h | h
  · left
    rw [← toFloat_1000]
    exact toFloat_mono_nonneg (by norm_num) h
  · right
    exact toFloat_nonpos h

/-- A jet whose scaled pt is outside the safeguard window is returned as it is. -/
theorem applyCorrection_clamp {corrFn : TF1} (minPt : ℚ) {jet : TLorentzVector}
    (h : 1000 ≤ jet.pt * corrFn.eval jet.pt ∨ jet.pt * corrFn.eval jet.pt ≤ 0) :
    applyCorrection corrFn minPt jet = jet :=
  applyCorrection_outside minPt (toFloat_outside h)

/-- A jet that passes the test and whose narrowed scaled pt is inside the
safeguard window gets that pt; eta, phi and mass are passed through. -/
theorem applyCorrection_scale {corrFn : TF1} {minPt : ℚ} {jet : TLorentzVector}
    (h : shouldCorrect minPt corrFn.xmin corrFn.xmax jet.pt = true)
    (hpos : 0 < toFloat (jet.pt * corrFn.eval jet.pt))
    (hlt : toFloat (jet.pt * corrFn.eval jet.pt) < 1000) :
    applyCorrection corrFn minPt jet
      = ⟨toFloat (jet.pt * corrFn.eval jet.pt), jet.eta, jet.phi, jet.m⟩ := by
  simp [applyCorrection, h, hpos, hlt, SetPtEtaPhiM, abs_of_pos hpos, ne_of_gt hpos]

/-- The correction of a jet never changes its eta, phi or mass. -/
theorem applyCorrection_frame (corrFn : TF1) (minPt : ℚ) (jet : TLorentzVector) :
    (applyCorrection corrFn minPt jet).eta = jet.eta ∧
    (applyCorrection corrFn minPt jet).phi = jet.phi ∧
    (applyCorrection corrFn minPt jet).m = jet.m := by
  by_cases hrule : shouldCorrect minPt corrFn.xmin corrFn.xmax jet.pt = true
  · by_cases hwin : 0 < toFloat (jet.pt * corrFn.eval jet.pt)
        ∧ toFloat (jet.pt * corrFn.eval jet.pt) < 1000
    · rw [applyCorrection_scale hrule hwin.1 hwin.2]
      exact ⟨rfl, rfl, rfl⟩
    · rw [applyCorrection_outside]
      · exact ⟨rfl, rfl, rfl⟩
      · by_contra hcon
        push_neg at hcon
        exact hwin ⟨hcon.2, hcon.1⟩
  · rw [applyCorrection_skip (by simpa using hrule)]
    exact ⟨rfl, rfl, rfl⟩

/-- The pt of a corrected jet is its input pt or lies strictly between 0 and
1000. -/
theorem applyCorrection_pt (corrFn : TF1) (minPt : ℚ) (jet : TLorentzVector) :
    (applyCorrection corrFn minPt jet).pt = jet.pt ∨
    (0 < (applyCorrection corrFn minPt jet).pt ∧ (applyCorrection corrFn minPt jet).pt < 1000) := by
  by_cases hrule : shouldCorrect minPt corrFn.xmin corrFn.xmax jet.pt = true
  · by_cases hwin : 0 < toFloat (jet.pt * corrFn.eval jet.pt)
        ∧ toFloat (jet.pt * corrFn.eval jet.pt) < 1000
    · rw [applyCorrection_scale hrule hwin.1 hwin.2]
      exact Or.inr hwin
    · rw [applyCorrection_outside]
      · exact Or.inl rfl
      · by_contra hcon
        push_neg at hcon
        exact hwin ⟨hcon.2, hcon.1⟩
  · rw [applyCorrection_skip (by simpa using hrule)]
    exact Or.inl rfl

/-- When every jet has a correction function and the table has one function
per bin, `correctJets` returns normally. -/
theorem correctJets_done_of_select {corrFns : List TF1} {etaBins : List ℚ} (minPt : ℚ)
    (hsize : corrFns.length + 1 = etaBins.length) :
    ∀ jets : List TLorentzVector,
      (∀ jet ∈ jets, ∃ corrFn, selectCorrFn corrFns etaBins jet = .ok corrFn) →
      (correctJets jets corrFns etaBins minPt).status = .done := by
  intro jets
  rw [correctJets_eq_loop jets minPt hsize]
  induction jets with
  | nil => intro _; simp [correctLoop]
  | cons j rest ih =>
    intro h
    obtain ⟨corrFn, hsel⟩ := h j (List.mem_cons_self j rest)
    rw [correctLoop_cons_ok minPt rest hsel]
    exact ih (fun jet hjet => h jet (List.mem_cons_of_mem j hjet))

/-! ## The two-bin table -/

/-- The edges `0.0f, 0.348f, 0.695f` are ascending. -/
theorem scenarioEtaBins_ascending : scenarioEtaBins.Pairwise (· < ·) := by
  rw [scenarioEtaBins_eq]
  norm_num

/-- On the two-bin table a jet whose single-precision `|eta|` is above `0.348f`
and at most `0.695f` takes the second function. -/
theorem selectCorrFn_scenario_upper (f0 f1 : TF1) (jet : TLorentzVector)
    (h1 : 5838471 / 16777216 < toFloat |jet.eta|)
    (h2 : toFloat |jet.eta| ≤ 11660165 / 16777216) :
    selectCorrFn [f0, f1] scenarioEtaBins jet = .ok f1 := by
  have hlo : scenarioEtaBins[1]? = some (5838471 / 16777216) := by
    rw [scenarioEtaBins_eq]
    rfl
  have hhi : scenarioEtaBins[1 + 1]? = some (11660165 / 16777216) := by
    rw [scenarioEtaBins_eq]
    rfl
  rw [selectCorrFn_between [f0, f1] (scenarioEtaBins_ascending.imp le_of_lt) hlo hhi h1 h2]
  rfl

/-- On the two-bin table a jet whose single-precision `|eta|` is above `0` and
at most `0.348f` takes the first function. -/
theorem selectCorrFn_scenario_lower (f0 f1 : TF1) (jet : TLorentzVector)
    (h1 : 0 < toFloat |jet.eta|)
    (h2 : toFloat |jet.eta| ≤ 5838471 / 16777216) :
    selectCorrFn [f0, f1] scenarioEtaBins jet = .ok f0 := by
  have hlo : scenarioEtaBins[0]? = some 0 := by
    rw [scenarioEtaBins_eq]
    rfl
  have hhi : scenarioEtaBins[0 + 1]? = some (5838471 / 16777216) := by
    rw [scenarioEtaBins_eq]
    rfl
  rw [selectCorrFn_between [f0, f1] (scenarioEtaBins_ascending.imp le_of_lt) hlo hhi h1 h2]
  rfl

/-- The two-bin table has three edges. -/
theorem scenarioEtaBins_length : scenarioEtaBins.length = 3 := by
  simp [scenarioEtaBins]

/-- On the two-bin table with one function per bin, a collection whose jets
all have single-precision `|eta|` above 0 and at most `0.695f` is corrected
without error. -/
theorem correctJets_scenario_done (f0 f1 : TF1) (minPt : ℚ) (jets : List TLorentzVector)
    (h : ∀ jet ∈ jets, 0 < toFloat |jet.eta| ∧ toFloat |jet.eta| ≤ 11660165 / 16777216) :
    (correctJets jets [f0, f1] scenarioEtaBins minPt).status = .done := by
  apply correctJets_done_of_select minPt (by rw [scenarioEtaBins_length]; rfl)
  intro jet hjet
  obtain ⟨h1, h2⟩ := h jet hjet
  by_cases hcut : toFloat |jet.eta| ≤ 5838471 / 16777216
  · exact ⟨f0, selectCorrFn_scenario_lower f0 f1 jet h1 hcut⟩
  · exact ⟨f1, selectCorrFn_scenario_upper f0 f1 jet (not_le.mp hcut) h2⟩

/-! ## Claims about correctJets -/

/-- C1: whatever the jet collection (the empty one included), when the number
of correction functions is not the number of eta-bin edges minus one,
`correctJets` leaves with the configuration error and the jet vector is exactly
the one it was given: no jet was examined or rewritten.  `hvec` is the capacity
bound every `std::vector<TF1>` satisfies. -/
theorem correctJets_size_mismatch (jets : List TLorentzVector) (corrFns : List TF1)
    (etaBins : List ℚ) (minPt : ℚ) (hvec : corrFns.length < 2 ^ 64 - 1)
    (hmis : corrFns.length + 1 ≠ etaBins.length) :
    correctJets jets corrFns etaBins minPt = ⟨jets, .configurationError⟩ := by
  have hne : corrFns.length ≠ sizeMinusOne etaBins.length := by
    unfold sizeMinusOne
    split <;> omega
  simp [correctJets, hne]

/-- Witness of C1: two functions for a table of two edges, with a jet far
outside every bin. -/
theorem correctJets_size_mismatch_witness :
    [constTF1 1 0 1, constTF1 2 0 1].length < 2 ^ 64 - 1 ∧
    [constTF1 1 0 1, constTF1 2 0 1].length + 1 ≠ ([0, 1] : List ℚ).length ∧
    correctJets [⟨30, 7, 0, 0⟩] [constTF1 1 0 1, constTF1 2 0 1] [0, 1] (-1)
      = ⟨[⟨30, 7, 0, 0⟩], .configurationError⟩ :=
  ⟨by decide, by decide, correctJets_size_mismatch _ _ _ _ (by decide) (by decide)⟩

/-- C2 as stated fails: with the edges `0.0f, 0.348f, 0.695f` of `main` and one
function per bin, a jet at `eta = 0` makes `correctJets` leave with the range
error although no jet has `|eta|` below the lowest edge `0`.  The same happens
on the edges `0.348f, 0.695f` with a jet at `eta = 0.348`, which is above the
lowest edge `0.348f` and is put on it by the narrowing to single precision. -/
theorem correctJets_rangeError_at_lowest_edge :
    ([constTF1 1 0 1000, constTF1 1 0 1000].length + 1 = scenarioEtaBins.length ∧
      scenarioEtaBins.Pairwise (· < ·) ∧
      scenarioEtaBins.head? = some 0 ∧
      (correctJets [⟨30, 0, 0, 0⟩] [constTF1 1 0 1000, constTF1 1 0 1000] scenarioEtaBins
        (-1)).status = .rangeError ∧
      ¬ ∃ jet ∈ [(⟨30, 0, 0, 0⟩ : TLorentzVector)], |jet.eta| < 0) ∧
    ([constTF1 1 0 1000].length + 1 = ([0.348, 0.695].map toFloat).length ∧
      ([0.348, 0.695].map toFloat).Pairwise (· < ·) ∧
      ([0.348, 0.695].map toFloat).head? = some (5838471 / 16777216) ∧
      (correctJets [⟨30, 0.348, 0, 0⟩] [constTF1 1 0 1000] ([0.348, 0.695].map toFloat)
        (-1)).status = .rangeError ∧
      ¬ ∃ jet ∈ [(⟨30, 0.348, 0, 0⟩ : TLorentzVector)], |jet.eta| < 5838471 / 16777216) := by
  constructor
  · have hsel : selectCorrFn [constTF1 1 0 1000, constTF1 1 0 1000] scenarioEtaBins
        ⟨30, 0, 0, 0⟩ = .error .rangeError := by
      rw [selectCorrFn_rangeError_iff _ (scenarioEtaBins_ascending.imp le_of_lt)
        (show scenarioEtaBins[0]? = some 0 by rw [scenarioEtaBins_eq]; rfl)]
      norm_num [toFloat_zero]
    refine ⟨by rw [scenarioEtaBins_length]; rfl, scenarioEtaBins_ascending,
      by rw [scenarioEtaBins_eq]; rfl, ?_, by norm_num⟩
    rw [correctJets_eq_loop _ _ (by rw [scenarioEtaBins_length]; rfl),
      correctLoop_cons_error _ _ hsel]
  · have hedges : ([0.348, 0.695].map toFloat : List ℚ)
        = [5838471 / 16777216, 11660165 / 16777216] := by
      norm_num [toFloat_87_250, toFloat_139_200]
    have hsel : selectCorrFn [constTF1 1 0 1000] [5838471 / 16777216, 11660165 / 16777216]
        ⟨30, 0.348, 0, 0⟩ = .error .rangeError := by
      rw [selectCorrFn_rangeError_iff [constTF1 1 0 1000] (by norm_num)
        (show ([5838471 / 16777216, 11660165 / 16777216] : List ℚ)[0]?
          = some (5838471 / 16777216) from rfl)]
      norm_num [abs_of_pos, toFloat_87_250]
    rw [hedges]
    refine ⟨by decide, by norm_num, rfl, ?_, by norm_num [abs_of_pos]⟩
    rw [correctJets_eq_loop _ _ (by decide), correctLoop_cons_error _ _ hsel]

/-- C2, amended: with one function per bin, ascending edges, and no jet whose
single-precision `|eta|` is above the highest edge, `correctJets` leaves with
the range error if and only if some jet has `|eta|`, narrowed to single
precision as the code does, at or below the lowest edge. -/
theorem correctJets_rangeError_iff (jets : List TLorentzVector) (corrFns : List TF1)
    (etaBins : List ℚ) (minPt lowest top : ℚ)
    (hsize : corrFns.length + 1 = etaBins.length) (hasc : etaBins.Pairwise (· ≤ ·))
    (hlow : etaBins.head? = some lowest) (htop : etaBins.getLast? = some top)
    (hup : ∀ jet ∈ jets, toFloat |jet.eta| ≤ top) :
    (correctJets jets corrFns etaBins minPt).status = .rangeError
      ↔ ∃ jet ∈ jets, toFloat |jet.eta| ≤ lowest := by
  have hlow0 : etaBins[0]? = some lowest := by
    cases etaBins with
    | nil => simp at hlow
    | cons a as => simpa using hlow
  have htopN : etaBins[corrFns.length]? = some top := by
    rw [List.getLast?_eq_getElem?, ← hsize] at htop
    simpa using htop
  rw [correctJets_eq_loop jets minPt hsize]
  exact correctLoop_rangeError_iff minPt hsize hasc hlow0 htopN jets hup

/-- Witness of C2, amended: the two-bin table of `main`, a jet in the second
bin and a jet on the lowest edge. -/
theorem correctJets_rangeError_iff_witness :
    (correctJets [⟨30, 0.5, 0, 0⟩, ⟨30, 0, 0, 0⟩] [constTF1 1 0 1000, constTF1 1 0 1000]
        scenarioEtaBins (-1)).status = .rangeError
      ↔ ∃ jet ∈ [(⟨30, 0.5, 0, 0⟩ : TLorentzVector), ⟨30, 0, 0, 0⟩], toFloat |jet.eta| ≤ 0 :=
  correctJets_rangeError_iff _ _ scenarioEtaBins (-1) 0 (11660165 / 16777216)
    (by rw [scenarioEtaBins_length]; rfl) (scenarioEtaBins_ascending.imp le_of_lt)
    (by rw [scenarioEtaBins_eq]; rfl) (by rw [scenarioEtaBins_eq]; rfl)
    (by norm_num [abs_of_pos, toFloat_1_2, toFloat_zero])

/-- C3, the code at a failing input: with the edges of `main` and one function
per bin, a jet at `eta = 5.1` (`5.1f` once narrowed), above the highest edge
`5.001f`, makes `correctJets` read `corrFns[11]` in a vector of 11 functions.
Control leaves by that unchecked read, not by either exception. -/
theorem correctJets_above_highest_edge :
    (List.replicate 11 (constTF1 1 0 1000)).length + 1 = mainEtaBins.length ∧
    correctJets [⟨30, 5.1, 0, 0⟩] (List.replicate 11 (constTF1 1 0 1000)) mainEtaBins (-1)
      = ⟨[⟨30, 5.1, 0, 0⟩], .undefinedRead⟩ := by
  have hsize : (List.replicate 11 (constTF1 1 0 1000)).length + 1 = mainEtaBins.length := by
    simp [mainEtaBins]
  have hasc : mainEtaBins.Pairwise (· ≤ ·) := by
    rw [mainEtaBins_eq]
    norm_num
  have htop : mainEtaBins[(List.replicate 11 (constTF1 1 0 1000)).length]?
      = some (10487857 / 2097152) := by
    rw [mainEtaBins_eq]
    simp
  have hjet : (10487857 / 2097152 : ℚ) < toFloat |(⟨30, 5.1, 0, 0⟩ : TLorentzVector).eta| := by
    norm_num [abs_of_pos, toFloat_51_10]
  refine ⟨hsize, ?_⟩
  rw [correctJets_eq_loop _ _ hsize]
  exact correctLoop_cons_error _ _ (selectCorrFn_above hsize hasc htop hjet)

/-- C4 as stated fails: with the strictly ascending edges `0.0f, 0.348f, 0.695f`
and one function per bin, a jet at `|eta| = 0.348` satisfies
`etaBins[1] ≤ |eta| < etaBins[2]`, yet it is corrected with function 0
(factor 2, pt 60) and not with function 1 (factor 3, pt 90). -/
theorem correctJets_interior_edge_uses_lower_bin :
    scenarioEtaBins.Pairwise (· < ·) ∧
    [constTF1 2 0 1000, constTF1 3 0 1000].length + 1 = scenarioEtaBins.length ∧
    scenarioEtaBins[1]? = some (5838471 / 16777216) ∧
    scenarioEtaBins[2]? = some (11660165 / 16777216) ∧
    (5838471 / 16777216 : ℚ) ≤ |(⟨30, 0.348, 0, 0⟩ : TLorentzVector).eta| ∧
    |(⟨30, 0.348, 0, 0⟩ : TLorentzVector).eta| < (11660165 / 16777216 : ℚ) ∧
    correctJets [⟨30, 0.348, 0, 0⟩] [constTF1 2 0 1000, constTF1 3 0 1000]
        scenarioEtaBins (-1) = ⟨[⟨60, 0.348, 0, 0⟩], .done⟩ ∧
    applyCorrection (constTF1 2 0 1000) (-1) ⟨30, 0.348, 0, 0⟩ = ⟨60, 0.348, 0, 0⟩ ∧
    (correctJets [⟨30, 0.348, 0, 0⟩] [constTF1 2 0 1000, constTF1 3 0 1000]
        scenarioEtaBins (-1)).jets[0]?
      ≠ some (applyCorrection (constTF1 3 0 1000) (-1) ⟨30, 0.348, 0, 0⟩) := by
  have hsel : selectCorrFn [constTF1 2 0 1000, constTF1 3 0 1000] scenarioEtaBins
      ⟨30, 0.348, 0, 0⟩ = .ok (constTF1 2 0 1000) :=
    selectCorrFn_scenario_lower _ _ _ (by norm_num [abs_of_pos, toFloat_87_250])
      (by norm_num [abs_of_pos, toFloat_87_250])
  have h0 : applyCorrection (constTF1 2 0 1000) (-1) ⟨30, 0.348, 0, 0⟩ = ⟨60, 0.348, 0, 0⟩ := by
    norm_num [applyCorrection, shouldCorrect, constTF1, SetPtEtaPhiM, toFloat_60]
  have h1 : applyCorrection (constTF1 3 0 1000) (-1) ⟨30, 0.348, 0, 0⟩ = ⟨90, 0.348, 0, 0⟩ := by
    norm_num [applyCorrection, shouldCorrect, constTF1, SetPtEtaPhiM, toFloat_90]
  have hrun : correctJets [⟨30, 0.348, 0, 0⟩] [constTF1 2 0 1000, constTF1 3 0 1000]
      scenarioEtaBins (-1) = ⟨[⟨60, 0.348, 0, 0⟩], .done⟩ := by
    rw [correctJets_eq_loop _ _ (by rw [scenarioEtaBins_length]; rfl),
      correctLoop_cons_ok _ _ hsel, h0]
    rfl
  refine ⟨scenarioEtaBins_ascending, by rw [scenarioEtaBins_length]; rfl,
    by rw [scenarioEtaBins_eq]; rfl, by rw [scenarioEtaBins_eq]; rfl,
    by norm_num [abs_of_pos], by norm_num [abs_of_pos], hrun, h0, ?_⟩
  rw [hrun, h1]
  norm_num

/-- C4, amended: for strictly ascending edges and one function per bin, when
`correctJets` returns normally a jet whose `|eta|`, narrowed to single
precision as the code does, satisfies `etaBins[i] < |eta| ≤ etaBins[i+1]` is
corrected with transfer function `i`: the bins are the half-open intervals
`(etaMin, etaMax]` of the single-precision `|eta|`. -/
theorem correctJets_bin_selection (jets : List TLorentzVector) (corrFns : List TF1)
    (etaBins : List ℚ) (minPt : ℚ) (k i : Nat) (jet : TLorentzVector) (lo hi : ℚ)
    (hsize : corrFns.length + 1 = etaBins.length) (hasc : etaBins.Pairwise (· < ·))
    (hdone : (correctJets jets corrFns etaBins minPt).status = .done)
    (hk : jets[k]? = some jet)
    (hlo : etaBins[i]? = some lo) (hhi : etaBins[i + 1]? = some hi)
    (h1 : lo < toFloat |jet.eta|) (h2 : toFloat |jet.eta| ≤ hi) :
    ∃ corrFn, corrFns[i]? = some corrFn ∧
      (correctJets jets corrFns etaBins minPt).jets[k]?
        = some (applyCorrection corrFn minPt jet) := by
  have hasc2 : etaBins.Pairwise (· ≤ ·) := hasc.imp le_of_lt
  have hi2 : i < corrFns.length := by
    have := (List.getElem?_eq_some.mp hhi).1
    omega
  have hsel := selectCorrFn_between corrFns hasc2 hlo hhi h1 h2
  rw [List.getElem?_eq_getElem hi2] at hsel
  exact ⟨corrFns[i], List.getElem?_eq_getElem hi2, correctJets_done_apply hdone hk hsel⟩

/-- Witness of C4, amended: on the edges `0.0f, 0.348f, 0.695f` the jet at
`eta = 0.348` has single-precision `|eta| = 0.348f`, which lies in
`(0, 0.348f]`, and takes function 0. -/
theorem correctJets_bin_selection_witness :
    ∃ corrFn, [constTF1 2 0 1000, constTF1 3 0 1000][0]? = some corrFn ∧
      (correctJets [⟨30, 0.348, 0, 0⟩] [constTF1 2 0 1000, constTF1 3 0 1000]
        scenarioEtaBins (-1)).jets[0]?
        = some (applyCorrection corrFn (-1) ⟨30, 0.348, 0, 0⟩) :=
  correctJets_bin_selection [⟨30, 0.348, 0, 0⟩] [constTF1 2 0 1000, constTF1 3 0 1000]
    scenarioEtaBins (-1) 0 0 ⟨30, 0.348, 0, 0⟩ 0 (5838471 / 16777216)
    (by rw [scenarioEtaBins_length]; rfl) scenarioEtaBins_ascending
    (correctJets_scenario_done _ _ _ _ (by norm_num [abs_of_pos, toFloat_87_250]))
    (by simp) (by rw [scenarioEtaBins_eq]; rfl) (by rw [scenarioEtaBins_eq]; rfl)
    (by norm_num [abs_of_pos, toFloat_87_250]) (by norm_num [abs_of_pos, toFloat_87_250])

/-- C7: when `correctJets` returns normally, a jet for which
`newPt = pt * f(pt)` is `≥ 1000` or `≤ 0` (both bounds included), with `f` the
function of its bin, keeps its original pt: the jet is unchanged. -/
theorem correctJets_clamp (jets : List TLorentzVector) (corrFns : List TF1)
    (etaBins : List ℚ) (minPt : ℚ) (k : Nat) (jet : TLorentzVector) (corrFn : TF1)
    (hdone : (correctJets jets corrFns etaBins minPt).status = .done)
    (hk : jets[k]? = some jet)
    (hbin : selectCorrFn corrFns etaBins jet = .ok corrFn)
    (hout : 1000 ≤ jet.pt * corrFn.eval jet.pt ∨ jet.pt * corrFn.eval jet.pt ≤ 0) :
    (correctJets jets corrFns etaBins minPt).jets[k]? = some jet := by
  rw [correctJets_done_apply hdone hk hbin, applyCorrection_clamp minPt hout]

/-- Witness of C7 (Scenario D): factor 40 gives `newPt = 1200` for a jet of
pt 30, which keeps pt 30. -/
theorem correctJets_clamp_witness :
    (correctJets [⟨30, 0.5, 0, 0⟩] [constTF1 1 0 1, constTF1 40 20 200]
      scenarioEtaBins (-1)).jets[0]? = some ⟨30, 0.5, 0, 0⟩ :=
  correctJets_clamp [⟨30, 0.5, 0, 0⟩] [constTF1 1 0 1, constTF1 40 20 200]
    scenarioEtaBins (-1) 0 ⟨30, 0.5, 0, 0⟩ (constTF1 40 20 200)
    (correctJets_scenario_done _ _ _ _ (by norm_num [abs_of_pos, toFloat_1_2]))
    (by simp)
    (selectCorrFn_scenario_upper _ _ _ (by norm_num [abs_of_pos, toFloat_1_2])
      (by norm_num [abs_of_pos, toFloat_1_2]))
    (by norm_num [constTF1])

/-- C8: whenever `correctJets` returns normally, the resulting collection has
the length of the input and, at every position, a jet with the eta, phi and
mass of the input jet at that position. -/
theorem correctJets_frame (jets : List TLorentzVector) (corrFns : List TF1)
    (etaBins : List ℚ) (minPt : ℚ)
    (hdone : (correctJets jets corrFns etaBins minPt).status = .done) :
    (correctJets jets corrFns etaBins minPt).jets.length = jets.length ∧
    ∀ (k : Nat) (jet : TLorentzVector), jets[k]? = some jet →
      ∃ out, (correctJets jets corrFns etaBins minPt).jets[k]? = some out ∧
        out.eta = jet.eta ∧ out.phi = jet.phi ∧ out.m = jet.m := by
  constructor
  · rw [correctJets_done_loop hdone]
    exact correctLoop_length corrFns etaBins minPt jets
  · intro k jet hk
    obtain ⟨corrFn, _, hout⟩ := correctJets_done_getElem? hdone hk
    exact ⟨applyCorrection corrFn minPt jet, hout, applyCorrection_frame corrFn minPt jet⟩

/-- Witness of C8: two jets in different bins, one of them rescaled. -/
theorem correctJets_frame_witness :
    (correctJets [⟨30, 0.5, 1, 2⟩, ⟨40, -0.25, 3, 0⟩] [constTF1 1 0 1, constTF1 1.05 20 200]
      scenarioEtaBins (-1)).jets.length
      = [(⟨30, 0.5, 1, 2⟩ : TLorentzVector), ⟨40, -0.25, 3, 0⟩].length ∧
    ∀ (k : Nat) (jet : TLorentzVector),
      [(⟨30, 0.5, 1, 2⟩ : TLorentzVector), ⟨40, -0.25, 3, 0⟩][k]? = some jet →
      ∃ out, (correctJets [⟨30, 0.5, 1, 2⟩, ⟨40, -0.25, 3, 0⟩]
          [constTF1 1 0 1, constTF1 1.05 20 200] scenarioEtaBins (-1)).jets[k]? = some out ∧
        out.eta = jet.eta ∧ out.phi = jet.phi ∧ out.m = jet.m :=
  correctJets_frame _ _ _ _
    (correctJets_scenario_done _ _ _ _
      (by norm_num [abs_of_pos, abs_of_neg, toFloat_1_2, toFloat_1_4]))

/-- C9 as stated fails: a jet of pt 30.3 at eta 0.5 whose bin function
evaluates to 1 at its pt (threshold `-1`, fit range `(20, 200)`) ends with pt
`7942963 / 262144 = 30.299999237060546875`, the single-precision value nearest
to 30.3, and not with the pt 30.3 it had before. -/
theorem correctJets_identity_rounds_pt :
    (correctJets [⟨30.3, 0.5, 0, 0⟩] [constTF1 1 0 1, constTF1 1 20 200]
        scenarioEtaBins (-1)).status = .done ∧
    selectCorrFn [constTF1 1 0 1, constTF1 1 20 200] scenarioEtaBins ⟨30.3, 0.5, 0, 0⟩
      = .ok (constTF1 1 20 200) ∧
    (constTF1 1 20 200).eval 30.3 = 1 ∧
    (correctJets [⟨30.3, 0.5, 0, 0⟩] [constTF1 1 0 1, constTF1 1 20 200]
        scenarioEtaBins (-1)).jets = [⟨7942963 / 262144, 0.5, 0, 0⟩] ∧
    (7942963 / 262144 : ℚ) ≠ 30.3 := by
  have hsel : selectCorrFn [constTF1 1 0 1, constTF1 1 20 200] scenarioEtaBins
      ⟨30.3, 0.5, 0, 0⟩ = .ok (constTF1 1 20 200) :=
    selectCorrFn_scenario_upper _ _ _ (by norm_num [abs_of_pos, toFloat_1_2])
      (by norm_num [abs_of_pos, toFloat_1_2])
  have hprod : (30.3 : ℚ) * (constTF1 1 20 200).eval 30.3 = 303 / 10 := by
    norm_num [constTF1]
  have happ : applyCorrection (constTF1 1 20 200) (-1) ⟨30.3, 0.5, 0, 0⟩
      = ⟨7942963 / 262144, 0.5, 0, 0⟩ := by
    rw [applyCorrection_scale (by norm_num [shouldCorrect, constTF1])
      (by show (0 : ℚ) < toFloat (30.3 * (constTF1 1 20 200).eval 30.3)
          rw [hprod, toFloat_303_10]; norm_num)
      (by show toFloat (30.3 * (constTF1 1 20 200).eval 30.3) < (1000 : ℚ)
          rw [hprod, toFloat_303_10]; norm_num)]
    show (⟨toFloat (30.3 * (constTF1 1 20 200).eval 30.3), 0.5, 0, 0⟩ : TLorentzVector) = _
    rw [hprod, toFloat_303_10]
  refine ⟨correctJets_scenario_done _ _ _ _ (by norm_num [abs_of_pos, toFloat_1_2]), hsel,
    by norm_num [constTF1], ?_, by norm_num⟩
  rw [correctJets_eq_loop _ _ (by rw [scenarioEtaBins_length]; rfl),
    correctLoop_cons_ok _ _ hsel, happ]
  rfl

/-- C9, amended: when `correctJets` returns normally, a jet whose bin function
evaluates to 1 at the jet's pt keeps its eta, phi and mass, and its pt after
the call is its pt before or that pt narrowed to single precision, whatever the
threshold and the fit range: the jet is unchanged when its pt is a
single-precision value, and otherwise the pt moves by at most `pt / 2^24`
(for a pt of at least `2^-126`). -/
theorem correctJets_identity (jets : List TLorentzVector) (corrFns : List TF1)
    (etaBins : List ℚ) (minPt : ℚ) (k : Nat) (jet : TLorentzVector) (corrFn : TF1)
    (hdone : (correctJets jets corrFns etaBins minPt).status = .done)
    (hk : jets[k]? = some jet)
    (hbin : selectCorrFn corrFns etaBins jet = .ok corrFn)
    (hone : corrFn.eval jet.pt = 1) :
    ∃ out, (correctJets jets corrFns etaBins minPt).jets[k]? = some out ∧
      out.eta = jet.eta ∧ out.phi = jet.phi ∧ out.m = jet.m ∧
      (out.pt = jet.pt ∨ out.pt = toFloat jet.pt) ∧
      (toFloat jet.pt = jet.pt → out = jet) ∧
      ((2 : ℚ) ^ (-126 : ℤ) ≤ |jet.pt| → |out.pt - jet.pt| ≤ |jet.pt| / 2 ^ 24) := by
  refine ⟨applyCorrection corrFn minPt jet, correctJets_done_apply hdone hk hbin, ?_⟩
  by_cases hrule : shouldCorrect minPt corrFn.xmin corrFn.xmax jet.pt = true
  · by_cases hwin : 0 < toFloat (jet.pt * corrFn.eval jet.pt)
        ∧ toFloat (jet.pt * corrFn.eval jet.pt) < 1000
    · rw [applyCorrection_scale hrule hwin.1 hwin.2, hone, mul_one]
      refine ⟨rfl, rfl, rfl, Or.inr rfl, ?_, ?_⟩
      · intro hexact
        rw [hexact]
      · intro hnormal
        exact abs_toFloat_sub_le_rel hnormal
    · rw [applyCorrection_outside]
      · refine ⟨rfl, rfl, rfl, Or.inl rfl, fun _ => rfl, ?_⟩
        intro _
        rw [sub_self, abs_zero]
        positivity
      · by_contra hcon
        push_neg at hcon
        exact hwin ⟨hcon.2, hcon.1⟩
  · rw [applyCorrection_skip (by simpa using hrule)]
    refine ⟨rfl, rfl, rfl, Or.inl rfl, fun _ => rfl, ?_⟩
    intro _
    rw [sub_self, abs_zero]
    positivity

/-- Witness of C9, amended: factor 1 inside the fit range; the pt 30 is a
single-precision value, so the jet of pt 30 is unchanged. -/
theorem correctJets_identity_witness :
    ∃ out, (correctJets [⟨30, 0.5, 0, 0⟩] [constTF1 1 0 1, constTF1 1 20 200]
        scenarioEtaBins (-1)).jets[0]? = some out ∧ out = ⟨30, 0.5, 0, 0⟩ := by
  obtain ⟨out, h1, _, _, _, _, h6, _⟩ := correctJets_identity [⟨30, 0.5, 0, 0⟩]
    [constTF1 1 0 1, constTF1 1 20 200] scenarioEtaBins (-1) 0 ⟨30, 0.5, 0, 0⟩
    (constTF1 1 20 200)
    (correctJets_scenario_done _ _ _ _ (by norm_num [abs_of_pos, toFloat_1_2]))
    (by simp)
    (selectCorrFn_scenario_upper _ _ _ (by norm_num [abs_of_pos, toFloat_1_2])
      (by norm_num [abs_of_pos, toFloat_1_2]))
    (by simp [constTF1])
  exact ⟨out, h1, h6 toFloat_30⟩

/-! ## The loader -/

/-- One iteration of the bin loop whose lookup succeeds. -/
theorem loadLoop_step_some {Name : Type} {file : Name → Option TF1} {binName : ℚ → ℚ → Name}
    {etaBins : List ℚ} {ind : Nat} {lo hi : ℚ} {fit : TF1} (left : Nat) (corrFns : List TF1)
    (hlo : etaBins[ind]? = some lo) (hhi : etaBins[ind + 1]? = some hi)
    (hfit : file (binName lo hi) = some fit) :
    loadLoop file binName etaBins (left + 1) ind corrFns
      = loadLoop file binName etaBins left (ind + 1) (corrFns ++ [fit]) := by
  simp [loadLoop, hlo, hhi, hfit]

/-- One iteration of the bin loop whose lookup fails: the loop is left with
the lookup error. -/
theorem loadLoop_step_none {Name : Type} {file : Name → Option TF1} {binName : ℚ → ℚ → Name}
    {etaBins : List ℚ} {ind : Nat} {lo hi : ℚ} (left : Nat) (corrFns : List TF1)
    (hlo : etaBins[ind]? = some lo) (hhi : etaBins[ind + 1]? = some hi)
    (hfit : file (binName lo hi) = none) :
    loadLoop file binName etaBins (left + 1) ind corrFns = ⟨corrFns, .lookupError⟩ := by
  simp [loadLoop, hlo, hhi, hfit]

/-- The bin loop, started at `ind` with `left` bins to go inside the edge
vector, ends normally exactly when every remaining bin name is found. -/
theorem loadLoop_done_iff {Name : Type} (file : Name → Option TF1) (binName : ℚ → ℚ → Name)
    (etaBins : List ℚ) :
    ∀ (left ind : Nat) (corrFns : List TF1), ind + left + 1 = etaBins.length →
      ((loadLoop file binName etaBins left ind corrFns).status = .done
        ↔ ∀ (i : Nat) (lo hi : ℚ), ind ≤ i → etaBins[i]? = some lo → etaBins[i + 1]? = some hi →
            (file (binName lo hi)).isSome = true) := by
  intro left
  induction left with
  | zero =>
    intro ind corrFns hlen
    simp only [loadLoop, true_iff]
    intro i lo hi hi1 _ hhi
    have := (List.getElem?_eq_some.mp hhi).1
    omega
  | succ left ih =>
    intro ind corrFns hlen
    have h0 : ind < etaBins.length := by omega
    have h1 : ind + 1 < etaBins.length := by omega
    have hlo : etaBins[ind]? = some etaBins[ind] := List.getElem?_eq_getElem h0
    have hhi : etaBins[ind + 1]? = some etaBins[ind + 1] := List.getElem?_eq_getElem h1
    cases hfit : file (binName etaBins[ind] etaBins[ind + 1]) with
    | none =>
      rw [loadLoop_step_none left corrFns hlo hhi hfit]
      constructor
      · intro h
        cases h
      · intro h
        have := h ind _ _ (le_refl _) hlo hhi
        rw [hfit] at this
        cases this
    | some fit =>
      rw [loadLoop_step_some left corrFns hlo hhi hfit, ih (ind + 1) (corrFns ++ [fit]) (by omega)]
      constructor
      · intro h i lo hi hi1 hlo2 hhi2
        rcases Nat.eq_or_lt_of_le hi1 with heq | hlt
        · subst heq
          rw [hlo] at hlo2
          rw [hhi] at hhi2
          cases hlo2
          cases hhi2
          rw [hfit]
          rfl
        · exact h i lo hi hlt hlo2 hhi2
      · intro h i lo hi hi1 hlo2 hhi2
        exact h i lo hi (by omega) hlo2 hhi2

/-- When the bin loop ends normally it has appended one function per remaining
bin, in bin order, each the one found under the name of its edge pair, and has
kept the functions already in the vector. -/
theorem loadLoop_done_contents {Name : Type} (file : Name → Option TF1)
    (binName : ℚ → ℚ → Name) (etaBins : List ℚ) :
    ∀ (left ind : Nat) (corrFns : List TF1),
      (loadLoop file binName etaBins left ind corrFns).status = .done →
      (loadLoop file binName etaBins left ind corrFns).corrFns.length = corrFns.length + left ∧
      (∀ j, j < corrFns.length →
        (loadLoop file binName etaBins left ind corrFns).corrFns[j]? = corrFns[j]?) ∧
      (∀ (i : Nat) (lo hi : ℚ), ind ≤ i → i < ind + left →
        etaBins[i]? = some lo → etaBins[i + 1]? = some hi →
        (loadLoop file binName etaBins left ind corrFns).corrFns[corrFns.length + (i - ind)]?
          = file (binName lo hi)) := by
  intro left
  induction left with
  | zero =>
    intro ind corrFns _
    refine ⟨by simp [loadLoop], fun j _ => by simp [loadLoop], ?_⟩
    intro i lo hi h1 h2
    omega
  | succ left ih =>
    intro ind corrFns hdone
    cases hlo : etaBins[ind]? with
    | none => simp [loadLoop, hlo] at hdone
    | some a =>
      cases hhi : etaBins[ind + 1]? with
      | none => simp [loadLoop, hlo, hhi] at hdone
      | some b =>
        cases hfit : file (binName a b) with
        | none =>
          rw [loadLoop_step_none left corrFns hlo hhi hfit] at hdone
          cases hdone
        | some fit =>
          rw [loadLoop_step_some left corrFns hlo hhi hfit] at hdone ⊢
          obtain ⟨hlen, hkeep, hnew⟩ := ih (ind + 1) (corrFns ++ [fit]) hdone
          refine ⟨by rw [hlen]; simp; omega, ?_, ?_⟩
          · intro j hj
            rw [hkeep j (by simp; omega), List.getElem?_append_left hj]
          · intro i lo hi h1 h2 hlo2 hhi2
            rcases Nat.eq_or_lt_of_le h1 with heq | hlt
            · subst heq
              rw [hlo] at hlo2
              rw [hhi] at hhi2
              cases hlo2
              cases hhi2
              have hidx0 : corrFns.length + (ind - ind) = corrFns.length := by omega
              rw [hidx0, hkeep corrFns.length (by simp), hfit]
              simp
            · have hidx : corrFns.length + (i - ind)
                  = (corrFns ++ [fit]).length + (i - (ind + 1)) := by
                simp
                omega
              rw [hidx]
              exact hnew i lo hi hlt (by omega) hlo2 hhi2

/-! ## Claims about loadCorrectionFunctions -/

/-- C10: for an edge sequence of length `N + 1` and an initially empty function
vector, `loadCorrectionFunctions` returns normally if and only if the file
holds a function under the name built from every consecutive edge pair; it
then leaves exactly `N` functions in the vector, the `i`-th being the one found
for `(etaBins[i], etaBins[i+1])`, so that the size check of `correctJets`
(`corrFns.size() == etaBins.size()-1`) passes for the loaded table. -/
theorem loadCorrectionFunctions_spec {Name : Type} (file : Name → Option TF1)
    (binName : ℚ → ℚ → Name) (etaBins : List ℚ) (N : Nat) (hlen : etaBins.length = N + 1) :
    ((loadCorrectionFunctions file binName [] etaBins).status = .done
      ↔ ∀ (i : Nat) (lo hi : ℚ), etaBins[i]? = some lo → etaBins[i + 1]? = some hi →
          (file (binName lo hi)).isSome = true) ∧
    ((loadCorrectionFunctions file binName [] etaBins).status = .done →
      (loadCorrectionFunctions file binName [] etaBins).corrFns.length = N ∧
      (∀ (i : Nat) (lo hi : ℚ), etaBins[i]? = some lo → etaBins[i + 1]? = some hi →
        (loadCorrectionFunctions file binName [] etaBins).corrFns[i]? = file (binName lo hi)) ∧
      (loadCorrectionFunctions file binName [] etaBins).corrFns.length + 1 = etaBins.length ∧
      (loadCorrectionFunctions file binName [] etaBins).corrFns.length
        = sizeMinusOne etaBins.length) := by
  have hN : sizeMinusOne etaBins.length = N := by
    rw [hlen]
    simp [sizeMinusOne]
  unfold loadCorrectionFunctions
  rw [hN]
  constructor
  · rw [loadLoop_done_iff file binName etaBins N 0 [] (by omega)]
    constructor
    · intro h i lo hi hlo hhi
      exact h i lo hi (Nat.zero_le i) hlo hhi
    · intro h i lo hi _ hlo hhi
      exact h i lo hi hlo hhi
  · intro hdone
    obtain ⟨hcount, _, hnew⟩ := loadLoop_done_contents file binName etaBins N 0 [] hdone
    have hcount2 : (loadLoop file binName etaBins N 0 []).corrFns.length = N := by
      simpa using hcount
    refine ⟨hcount2, ?_, by omega, hcount2⟩
    intro i lo hi hlo hhi
    have hi2 : i + 1 < etaBins.length := (List.getElem?_eq_some.mp hhi).1
    have := hnew i lo hi (Nat.zero_le i) (by omega) hlo hhi
    simpa using this

/-- Witness of C10: three edges, a file that holds a function under every
name; the loader returns normally exactly under the lookup condition. -/
theorem loadCorrectionFunctions_spec_witness :
    (loadCorrectionFunctions (fun _ : ℚ × ℚ => some (constTF1 1.05 20 200)) Prod.mk []
        [0, 0.348, 0.695]).status = .done
      ↔ ∀ (i : Nat) (lo hi : ℚ), ([0, 0.348, 0.695] : List ℚ)[i]? = some lo →
          ([0, 0.348, 0.695] : List ℚ)[i + 1]? = some hi →
          ((fun _ : ℚ × ℚ => some (constTF1 1.05 20 200)) (lo, hi)).isSome = true :=
  (loadCorrectionFunctions_spec (fun _ : ℚ × ℚ => some (constTF1 1.05 20 200)) Prod.mk
    [0, 0.348, 0.695] 2 (by decide)).1

/-! ## The loader on a missing name -/

/-- When the first bin whose name is missing is bin `k`, the bin loop started
at `ind ≤ k` is left with the lookup error, and the vector then holds what it
held before followed by the functions of the bins `ind .. k-1`, in bin order. -/
theorem loadLoop_missing {Name : Type} (file : Name → Option TF1) (binName : ℚ → ℚ → Name)
    (etaBins : List ℚ) (k : Nat) (lo hi : ℚ)
    (hlo : etaBins[k]? = some lo) (hhi : etaBins[k + 1]? = some hi)
    (hmiss : file (binName lo hi) = none) :
    ∀ (left ind : Nat) (corrFns : List TF1), ind ≤ k → k < ind + left →
      (∀ (i : Nat) (lo2 hi2 : ℚ), ind ≤ i → i < k → etaBins[i]? = some lo2 →
        etaBins[i + 1]? = some hi2 → (file (binName lo2 hi2)).isSome = true) →
      (loadLoop file binName etaBins left ind corrFns).status = .lookupError ∧
      (loadLoop file binName etaBins left ind corrFns).corrFns.length
        = corrFns.length + (k - ind) ∧
      (∀ j, j < corrFns.length →
        (loadLoop file binName etaBins left ind corrFns).corrFns[j]? = corrFns[j]?) ∧
      (∀ (i : Nat) (lo2 hi2 : ℚ), ind ≤ i → i < k → etaBins[i]? = some lo2 →
        etaBins[i + 1]? = some hi2 →
        (loadLoop file binName etaBins left ind corrFns).corrFns[corrFns.length + (i - ind)]?
          = file (binName lo2 hi2)) := by
  intro left
  induction left with
  | zero =>
    intro ind corrFns h1 h2
    omega
  | succ left ih =>
    intro ind corrFns h1 h2 hfound
    rcases Nat.eq_or_lt_of_le h1 with heq | hlt
    · subst heq
      rw [loadLoop_step_none left corrFns hlo hhi hmiss]
      refine ⟨rfl, by simp, fun j _ => rfl, ?_⟩
      intro i lo2 hi2 h3 h4
      omega
    · have hk : k + 1 < etaBins.length := (List.getElem?_eq_some.mp hhi).1
      have h0 : ind < etaBins.length := by omega
      have h1' : ind + 1 < etaBins.length := by omega
      have hlo0 : etaBins[ind]? = some etaBins[ind] := List.getElem?_eq_getElem h0
      have hhi0 : etaBins[ind + 1]? = some etaBins[ind + 1] := List.getElem?_eq_getElem h1'
      have hsome := hfound ind _ _ (le_refl _) hlt hlo0 hhi0
      obtain ⟨fit, hfit⟩ := Option.isSome_iff_exists.mp hsome
      rw [loadLoop_step_some left corrFns hlo0 hhi0 hfit]
      obtain ⟨hst, hlen, hkeep, hnew⟩ := ih (ind + 1) (corrFns ++ [fit]) hlt (by omega)
        (fun i lo2 hi2 h3 h4 => hfound i lo2 hi2 (by omega) h4)
      refine ⟨hst, by rw [hlen]; simp; omega, ?_, ?_⟩
      · intro j hj
        rw [hkeep j (by simp; omega), List.getElem?_append_left hj]
      · intro i lo2 hi2 h3 h4 hlo2 hhi2
        rcases Nat.eq_or_lt_of_le h3 with heq | hlt2
        · subst heq
          rw [hlo0] at hlo2
          rw [hhi0] at hhi2
          cases hlo2
          cases hhi2
          have hidx0 : corrFns.length + (ind - ind) = corrFns.length := by omega
          rw [hidx0, hkeep corrFns.length (by simp), hfit]
          simp
        · have hidx : corrFns.length + (i - ind)
              = (corrFns ++ [fit]).length + (i - (ind + 1)) := by
            simp
            omega
          rw [hidx]
          exact hnew i lo2 hi2 hlt2 h4 hlo2 hhi2

/-- C11 as stated fails: with three edges and a file that holds the function of
the first bin only, the loader leaves with the lookup error and the caller's
vector, empty before the call, holds the function of the first bin. -/
theorem loadCorrectionFunctions_partial_table :
    (loadCorrectionFunctions
        (fun n : ℚ × ℚ => if n.1 = 0 then some (constTF1 1.05 20 200) else none)
        Prod.mk [] [0, 0.348, 0.695]).status = .lookupError ∧
    (loadCorrectionFunctions
        (fun n : ℚ × ℚ => if n.1 = 0 then some (constTF1 1.05 20 200) else none)
        Prod.mk [] [0, 0.348, 0.695]).corrFns.length = 1 ∧
    (loadCorrectionFunctions
        (fun n : ℚ × ℚ => if n.1 = 0 then some (constTF1 1.05 20 200) else none)
        Prod.mk [] [0, 0.348, 0.695]).corrFns ≠ [] := by
  refine ⟨?_, ?_, ?_⟩ <;> norm_num [loadCorrectionFunctions, loadLoop, sizeMinusOne]

/-- C11, amended: when loading fails because the name of bin `k` is the first
one absent from the file, `loadCorrectionFunctions` leaves with the lookup
error and a partial table: the caller's vector holds what it held before the
call, followed by the functions of the `k` bins that preceded the missing one,
in bin order. -/
theorem loadCorrectionFunctions_missing {Name : Type} (file : Name → Option TF1)
    (binName : ℚ → ℚ → Name) (corrFns : List TF1) (etaBins : List ℚ) (k : Nat) (lo hi : ℚ)
    (hlo : etaBins[k]? = some lo) (hhi : etaBins[k + 1]? = some hi)
    (hmiss : file (binName lo hi) = none)
    (hfirst : ∀ (i : Nat) (lo2 hi2 : ℚ), i < k → etaBins[i]? = some lo2 →
      etaBins[i + 1]? = some hi2 → (file (binName lo2 hi2)).isSome = true) :
    (loadCorrectionFunctions file binName corrFns etaBins).status = .lookupError ∧
    (loadCorrectionFunctions file binName corrFns etaBins).corrFns.length
      = corrFns.length + k ∧
    (∀ j, j < corrFns.length →
      (loadCorrectionFunctions file binName corrFns etaBins).corrFns[j]? = corrFns[j]?) ∧
    (∀ (i : Nat) (lo2 hi2 : ℚ), i < k → etaBins[i]? = some lo2 →
      etaBins[i + 1]? = some hi2 →
      (loadCorrectionFunctions file binName corrFns etaBins).corrFns[corrFns.length + i]?
        = file (binName lo2 hi2)) := by
  have hk : k + 1 < etaBins.length := (List.getElem?_eq_some.mp hhi).1
  have hN : sizeMinusOne etaBins.length = etaBins.length - 1 := by
    unfold sizeMinusOne
    split
    · omega
    · rfl
  unfold loadCorrectionFunctions
  rw [hN]
  obtain ⟨hst, hlen, hkeep, hnew⟩ := loadLoop_missing file binName etaBins k lo hi hlo hhi hmiss
    (etaBins.length - 1) 0 corrFns (Nat.zero_le k) (by omega)
    (fun i lo2 hi2 _ h4 => hfirst i lo2 hi2 h4)
  refine ⟨hst, by simpa using hlen, hkeep, ?_⟩
  intro i lo2 hi2 h4 hlo2 hhi2
  simpa using hnew i lo2 hi2 (Nat.zero_le i) h4 hlo2 hhi2

/-- Witness of C11, amended: three edges, the second bin missing; the vector
ends with one function after the one it held. -/
theorem loadCorrectionFunctions_missing_witness :
    (loadCorrectionFunctions
        (fun n : ℚ × ℚ => if n.1 = 0 then some (constTF1 1.05 20 200) else none)
        Prod.mk [constTF1 1 0 1] [0, 0.348, 0.695]).status = .lookupError ∧
    (loadCorrectionFunctions
        (fun n : ℚ × ℚ => if n.1 = 0 then some (constTF1 1.05 20 200) else none)
        Prod.mk [constTF1 1 0 1] [0, 0.348, 0.695]).corrFns.length
      = [constTF1 1 0 1].length + 1 :=
  have h := loadCorrectionFunctions_missing
    (fun n : ℚ × ℚ => if n.1 = 0 then some (constTF1 1.05 20 200) else none)
    Prod.mk [constTF1 1 0 1] [0, 0.348, 0.695] 1 0.348 0.695 (by simp) (by simp)
    (by norm_num)
    (by
      intro i lo2 hi2 hi
      have h0 : i = 0 := by omega
      subst h0
      intro hlo2 _
      simp at hlo2
      subst hlo2
      simp)
  ⟨h.1, h.2.1⟩

/-! ## makeTLorentzVectors -/

/-- The record loop started at `i` on three arrays of one length returns
normally, keeps the records already pushed and appends one record per remaining
index, built by `SetPtEtaPhiM` from the three entries at that index. -/
theorem makeLoop_spec (et eta phi : List ℚ) (h1 : et.length = eta.length)
    (h2 : et.length = phi.length) :
    ∀ (left i : Nat) (vecs : List TLorentzVector), i + left = et.length →
      ∃ out, makeLoop et eta phi left i vecs = .ok out ∧
        out.length = vecs.length + left ∧
        (∀ j, j < vecs.length → out[j]? = vecs[j]?) ∧
        (∀ (k : Nat) (e h p : ℚ), i ≤ k → et[k]? = some e → eta[k]? = some h →
          phi[k]? = some p → out[vecs.length + (k - i)]? = some (SetPtEtaPhiM e h p 0)) := by
  intro left
  induction left with
  | zero =>
    intro i vecs hlen
    refine ⟨vecs, rfl, rfl, fun j _ => rfl, ?_⟩
    intro k e h p hk he
    have := (List.getElem?_eq_some.mp he).1
    omega
  | succ left ih =>
    intro i vecs hlen
    have hi1 : i < et.length := by omega
    have hi2 : i < eta.length := by omega
    have hi3 : i < phi.length := by omega
    have he : et[i]? = some et[i] := List.getElem?_eq_getElem hi1
    have hh : eta[i]? = some eta[i] := List.getElem?_eq_getElem hi2
    have hp : phi[i]? = some phi[i] := List.getElem?_eq_getElem hi3
    obtain ⟨out, hout, hlen2, hkeep, hnew⟩ :=
      ih (i + 1) (vecs ++ [SetPtEtaPhiM et[i] eta[i] phi[i] 0]) (by omega)
    refine ⟨out, by simp [makeLoop, he, hh, hp, hout], by rw [hlen2]; simp; omega, ?_, ?_⟩
    · intro j hj
      rw [hkeep j (by simp; omega), List.getElem?_append_left hj]
    · intro k e h p hk he2 hh2 hp2
      rcases Nat.eq_or_lt_of_le hk with heq | hlt
      · subst heq
        rw [he] at he2
        rw [hh] at hh2
        rw [hp] at hp2
        cases he2
        cases hh2
        cases hp2
        have hidx0 : vecs.length + (i - i) = vecs.length := by omega
        rw [hidx0, hkeep vecs.length (by simp)]
        simp
      · have hidx : vecs.length + (k - i)
            = (vecs ++ [SetPtEtaPhiM et[i] eta[i] phi[i] 0]).length + (k - (i + 1)) := by
          simp
          omega
        rw [hidx]
        exact hnew k e h p hlt he2 hh2 hp2

/-- C12 as stated fails: for `et = [0]`, `eta = [0.5]`, `phi = [1]` (arrays of
one length, et not negative, phi in the principal range) the record built is
the null vector, which reads `eta = 0` and `phi = 0`, not `eta[0] = 0.5` and
`phi[0] = 1`: `SetPtEtaPhiM` stores Cartesian components, and with pt 0 they
are all 0. -/
theorem makeTLorentzVectors_zero_et :
    ([0] : List ℚ).length = ([0.5] : List ℚ).length ∧
    ([0] : List ℚ).length = ([1] : List ℚ).length ∧
    makeTLorentzVectors [0] [0.5] [1] = .ok [⟨0, 0, 0, 0⟩] ∧
    (⟨0, 0, 0, 0⟩ : TLorentzVector).eta ≠ 0.5 ∧
    (⟨0, 0, 0, 0⟩ : TLorentzVector).phi ≠ 1 := by
  refine ⟨rfl, rfl, ?_, by norm_num, by norm_num⟩
  norm_num [makeTLorentzVectors, makeLoop, SetPtEtaPhiM]

/-- C12, amended: if the et, eta and phi arrays do not all have the same
length, `makeTLorentzVectors` fails with the input error and returns no record;
otherwise it returns a sequence of the same length whose `i`-th record has
mass 0 and `pt = |et[i]|`; when `et[i] > 0` it has `pt = et[i]` and
`eta = eta[i]`, and also `phi = phi[i]` when `phi[i]` is in the principal range
(here `|phi[i]| ≤ 3.14159`); when `et[i] = 0` it is the null vector, which
reads pt 0, eta 0 and phi 0 whatever `eta[i]` and `phi[i]` are.  Empty arrays
give the empty sequence. -/
theorem makeTLorentzVectors_spec (et eta phi : List ℚ) :
    (et.length ≠ eta.length ∨ et.length ≠ phi.length →
      makeTLorentzVectors et eta phi = .error .inputError) ∧
    (et.length = eta.length → et.length = phi.length →
      ∃ vecs, makeTLorentzVectors et eta phi = .ok vecs ∧
        vecs.length = et.length ∧
        (∀ (i : Nat) (e h p : ℚ), et[i]? = some e → eta[i]? = some h → phi[i]? = some p →
          ∃ v, vecs[i]? = some v ∧ v.pt = |e| ∧ v.m = 0 ∧
            (e ≠ 0 → v.eta = h) ∧
            (0 < e → v.pt = e ∧ v.eta = h) ∧
            (0 < e → |p| ≤ 3.14159 → v = ⟨e, h, p, 0⟩) ∧
            (e = 0 → v = ⟨0, 0, 0, 0⟩))) ∧
    makeTLorentzVectors [] [] [] = .ok [] := by
  refine ⟨?_, ?_, by simp [makeTLorentzVectors, makeLoop]⟩
  · intro h
    simp [makeTLorentzVectors, h]
  · intro h1 h2
    obtain ⟨out, hout, hlen, _, hnew⟩ := makeLoop_spec et eta phi h1 h2 et.length 0 [] (by omega)
    have hrun : makeTLorentzVectors et eta phi = .ok out := by
      unfold makeTLorentzVectors
      rw [if_neg (by rw [not_or]; exact ⟨not_not.mpr h1, not_not.mpr h2⟩), hout]
    refine ⟨out, hrun, by simpa using hlen, ?_⟩
    intro i e h p he hh hp
    have hi := hnew i e h p (Nat.zero_le i) he hh hp
    simp only [List.length_nil, Nat.zero_add, Nat.sub_zero] at hi
    refine ⟨SetPtEtaPhiM e h p 0, hi, ?_⟩
    by_cases h0 : e = 0
    · subst h0
      simp [SetPtEtaPhiM]
    · have hset : SetPtEtaPhiM e h p 0 = ⟨|e|, h, p, 0⟩ := by
        simp [SetPtEtaPhiM, h0]
      rw [hset]
      refine ⟨rfl, rfl, fun _ => rfl, fun hpos => ⟨abs_of_pos hpos, rfl⟩, ?_, ?_⟩
      · intro hpos _
        rw [abs_of_pos hpos]
      · intro hz
        exact absurd hz h0

/-- Witness of C12, amended: arrays of different lengths give the input error;
arrays of one length with a positive et give the record of the three entries. -/
theorem makeTLorentzVectors_spec_witness :
    makeTLorentzVectors [30, 20] [0.5] [0, 1] = .error .inputError ∧
    ∃ vecs, makeTLorentzVectors [30] [0.5] [1] = .ok vecs ∧
      vecs.length = ([30] : List ℚ).length ∧ vecs[0]? = some ⟨30, 0.5, 1, 0⟩ := by
  refine ⟨(makeTLorentzVectors_spec [30, 20] [0.5] [0, 1]).1 (by decide), ?_⟩
  obtain ⟨vecs, hrun, hlen, hrec⟩ := (makeTLorentzVectors_spec [30] [0.5] [1]).2.1 rfl rfl
  obtain ⟨v, hv, _, _, _, _, hfull, _⟩ := hrec 0 30 0.5 1 rfl rfl rfl
  exact ⟨vecs, hrun, hlen, by
    rw [hv, hfull (by norm_num) (by norm_num [abs_of_pos])]⟩

/-! ## More on correctJets -/

/-- The jet loop on a concatenation: the second part is processed only when
the first part ran to its end. -/
theorem correctLoop_append (corrFns : List TF1) (etaBins : List ℚ) (minPt : ℚ)
    (b : List TLorentzVector) :
    ∀ a : List TLorentzVector,
      correctLoop corrFns etaBins minPt (a ++ b)
        = if (correctLoop corrFns etaBins minPt a).status = .done then
            ⟨(correctLoop corrFns etaBins minPt a).jets
                ++ (correctLoop corrFns etaBins minPt b).jets,
              (correctLoop corrFns etaBins minPt b).status⟩
          else
            ⟨(correctLoop corrFns etaBins minPt a).jets ++ b,
              (correctLoop corrFns etaBins minPt a).status⟩ := by
  intro a
  induction a with
  | nil => simp [correctLoop]
  | cons j rest ih =>
    cases hsel : selectCorrFn corrFns etaBins j with
    | error e =>
      have hne : e ≠ .done := by
        intro h
        rw [h] at hsel
        exact selectCorrFn_ne_error_done corrFns etaBins j hsel
      rw [List.cons_append, correctLoop_cons_error minPt (rest ++ b) hsel,
        correctLoop_cons_error minPt rest hsel]
      simp [hne]
    | ok corrFn =>
      rw [List.cons_append, correctLoop_cons_ok minPt (rest ++ b) hsel,
        correctLoop_cons_ok minPt rest hsel, ih]
      by_cases hd : (correctLoop corrFns etaBins minPt rest).status = .done
      · simp [hd]
      · simp [hd]

/-- C18 as stated fails: on the strictly ascending edges `0.0f, 0.348f, 0.695f`
with one function per bin, the jet at `eta = -0.348` has
`etaBins[0] < |eta| ≤ last edge`, and the unique `i` with
`etaBins[i] < |eta| ≤ etaBins[i+1]` is 1, yet the index the code chooses is 0:
the search is made with `|eta|` narrowed to single precision, which is the
edge `0.348f` itself. -/
theorem correctJets_lowerBound_lookup_narrowed :
    scenarioEtaBins.Pairwise (· < ·) ∧
    [constTF1 2 0 1000, constTF1 3 0 1000].length + 1 = scenarioEtaBins.length ∧
    scenarioEtaBins[0]? = some 0 ∧
    scenarioEtaBins[1]? = some (5838471 / 16777216) ∧
    scenarioEtaBins[2]? = some (11660165 / 16777216) ∧
    scenarioEtaBins.getLast? = some (11660165 / 16777216) ∧
    (0 : ℚ) < |(⟨30, -0.348, 0, 0⟩ : TLorentzVector).eta| ∧
    (5838471 / 16777216 : ℚ) < |(⟨30, -0.348, 0, 0⟩ : TLorentzVector).eta| ∧
    |(⟨30, -0.348, 0, 0⟩ : TLorentzVector).eta| ≤ (11660165 / 16777216 : ℚ) ∧
    lowerBound scenarioEtaBins (toFloat |(⟨30, -0.348, 0, 0⟩ : TLorentzVector).eta|) - 1 = 0 ∧
    selectCorrFn [constTF1 2 0 1000, constTF1 3 0 1000] scenarioEtaBins ⟨30, -0.348, 0, 0⟩
      = .ok (constTF1 2 0 1000) ∧
    (constTF1 2 0 1000).eval 30 ≠ (constTF1 3 0 1000).eval 30 := by
  have habs : toFloat |(⟨30, -0.348, 0, 0⟩ : TLorentzVector).eta| = 5838471 / 16777216 := by
    norm_num [abs_of_neg, toFloat_87_250]
  have hlb : lowerBound scenarioEtaBins
      (toFloat |(⟨30, -0.348, 0, 0⟩ : TLorentzVector).eta|) = 0 + 1 :=
    lowerBound_between (scenarioEtaBins_ascending.imp le_of_lt)
      (show scenarioEtaBins[0]? = some 0 by rw [scenarioEtaBins_eq]; rfl)
      (show scenarioEtaBins[0 + 1]? = some (5838471 / 16777216) by
        rw [scenarioEtaBins_eq]; rfl)
      (by rw [habs]; norm_num) (by rw [habs])
  refine ⟨scenarioEtaBins_ascending, by rw [scenarioEtaBins_length]; rfl,
    by rw [scenarioEtaBins_eq]; rfl, by rw [scenarioEtaBins_eq]; rfl,
    by rw [scenarioEtaBins_eq]; rfl, by rw [scenarioEtaBins_eq]; rfl,
    by norm_num [abs_of_neg], by norm_num [abs_of_neg], by norm_num [abs_of_neg],
    by rw [hlb], ?_, by norm_num [constTF1]⟩
  exact selectCorrFn_scenario_lower _ _ _ (by rw [habs]; norm_num) (by rw [habs])

/-- C18, amended: for strictly ascending edges, one function per bin, and a
jet whose `|eta|`, narrowed to single precision as the code does, is above
`etaBins[0]` and at most the last edge (which it is when `|eta|` itself is at
most the last edge and that edge is a single-precision value), the lower-bound
search returns a position `i + 1` whose edge is the first one at or above the
narrowed `|eta|`; the function index `i` (that position minus one) is within
the function vector and is the unique `i` with
`etaBins[i] < narrowed |eta| ≤ etaBins[i+1]`; the bin lookup returns
`corrFns[i]`, so the read past the end of the vector is not reached. -/
theorem correctJets_lowerBound_lookup (corrFns : List TF1) (etaBins : List ℚ)
    (jet : TLorentzVector) (lowest top : ℚ)
    (hsize : corrFns.length + 1 = etaBins.length) (hasc : etaBins.Pairwise (· < ·))
    (hlow : etaBins.head? = some lowest) (htop : etaBins.getLast? = some top)
    (h1 : lowest < toFloat |jet.eta|)
    (h2 : toFloat |jet.eta| ≤ top ∨ (toFloat top = top ∧ |jet.eta| ≤ top)) :
    ∃ (i : Nat) (lo hi : ℚ) (corrFn : TF1),
      lowerBound etaBins (toFloat |jet.eta|) = i + 1 ∧
      (∀ (j : Nat) (a : ℚ), j < i + 1 → etaBins[j]? = some a → a < toFloat |jet.eta|) ∧
      i < corrFns.length ∧ corrFns[i]? = some corrFn ∧
      etaBins[i]? = some lo ∧ etaBins[i + 1]? = some hi ∧
      lo < toFloat |jet.eta| ∧ toFloat |jet.eta| ≤ hi ∧
      (∀ (j : Nat) (lo2 hi2 : ℚ), etaBins[j]? = some lo2 → etaBins[j + 1]? = some hi2 →
        lo2 < toFloat |jet.eta| → toFloat |jet.eta| ≤ hi2 → j = i) ∧
      selectCorrFn corrFns etaBins jet = .ok corrFn ∧
      selectCorrFn corrFns etaBins jet ≠ .error .undefinedRead := by
  have hasc2 : etaBins.Pairwise (· ≤ ·) := hasc.imp le_of_lt
  have hlow0 : etaBins[0]? = some lowest := by
    cases etaBins with
    | nil => simp at hlow
    | cons a as => simpa using hlow
  have htopN : etaBins[corrFns.length]? = some top := by
    rw [List.getLast?_eq_getElem?, ← hsize] at htop
    simpa using htop
  have h2n : toFloat |jet.eta| ≤ top := by
    rcases h2 with h | ⟨hfl, hle⟩
    · exact h
    · rw [← hfl]
      exact toFloat_mono_nonneg (abs_nonneg _) hle
  obtain ⟨_, hbelow, habove⟩ := lowerBound_spec hasc2 (toFloat |jet.eta|)
  have hne : lowerBound etaBins (toFloat |jet.eta|) ≠ 0 := by
    intro h
    exact absurd ((lowerBound_eq_zero_iff hasc2 hlow0).mp h) (not_le.mpr h1)
  have hle : lowerBound etaBins (toFloat |jet.eta|) ≤ corrFns.length := by
    by_contra hcon
    exact absurd (hbelow corrFns.length top (not_le.mp hcon) htopN) (not_lt.mpr h2n)
  obtain ⟨i, hi⟩ : ∃ i, lowerBound etaBins (toFloat |jet.eta|) = i + 1 :=
    ⟨lowerBound etaBins (toFloat |jet.eta|) - 1, by omega⟩
  have hi1 : i < corrFns.length := by omega
  have hi2 : i < etaBins.length := by omega
  have hi3 : i + 1 < etaBins.length := by omega
  have hlo : etaBins[i]? = some etaBins[i] := List.getElem?_eq_getElem hi2
  have hhi : etaBins[i + 1]? = some etaBins[i + 1] := List.getElem?_eq_getElem hi3
  have hlt : etaBins[i] < toFloat |jet.eta| := hbelow i _ (by omega) hlo
  have hge : toFloat |jet.eta| ≤ etaBins[i + 1] := habove (i + 1) _ (by omega) hhi
  have hsel : selectCorrFn corrFns etaBins jet = .ok corrFns[i] := by
    rw [selectCorrFn_between corrFns hasc2 hlo hhi hlt hge, List.getElem?_eq_getElem hi1]
  refine ⟨i, etaBins[i], etaBins[i + 1], corrFns[i], hi, ?_, hi1,
    List.getElem?_eq_getElem hi1, hlo, hhi, hlt, hge, ?_, hsel, ?_⟩
  · intro j a hj ha
    exact hbelow j a (by omega) ha
  · intro j lo2 hi2 hlo2 hhi2 h3 h4
    have := lowerBound_between hasc2 hlo2 hhi2 h3 h4
    omega
  · rw [hsel]
    simp

/-- Witness of C18, amended: on the edges `0.0f, 0.348f, 0.695f` the jet at
`eta = -0.5` reads function 1. -/
theorem correctJets_lowerBound_lookup_witness :
    ∃ (i : Nat) (lo hi : ℚ) (corrFn : TF1),
      lowerBound scenarioEtaBins (toFloat |(⟨30, -0.5, 0, 0⟩ : TLorentzVector).eta|) = i + 1 ∧
      (∀ (j : Nat) (a : ℚ), j < i + 1 → scenarioEtaBins[j]? = some a →
        a < toFloat |(⟨30, -0.5, 0, 0⟩ : TLorentzVector).eta|) ∧
      i < [constTF1 1 0 1, constTF1 1.05 20 200].length ∧
      [constTF1 1 0 1, constTF1 1.05 20 200][i]? = some corrFn ∧
      scenarioEtaBins[i]? = some lo ∧
      scenarioEtaBins[i + 1]? = some hi ∧
      lo < toFloat |(⟨30, -0.5, 0, 0⟩ : TLorentzVector).eta| ∧
      toFloat |(⟨30, -0.5, 0, 0⟩ : TLorentzVector).eta| ≤ hi ∧
      (∀ (j : Nat) (lo2 hi2 : ℚ), scenarioEtaBins[j]? = some lo2 →
        scenarioEtaBins[j + 1]? = some hi2 →
        lo2 < toFloat |(⟨30, -0.5, 0, 0⟩ : TLorentzVector).eta| →
        toFloat |(⟨30, -0.5, 0, 0⟩ : TLorentzVector).eta| ≤ hi2 → j = i) ∧
      selectCorrFn [constTF1 1 0 1, constTF1 1.05 20 200] scenarioEtaBins
        ⟨30, -0.5, 0, 0⟩ = .ok corrFn ∧
      selectCorrFn [constTF1 1 0 1, constTF1 1.05 20 200] scenarioEtaBins
        ⟨30, -0.5, 0, 0⟩ ≠ .error .undefinedRead :=
  correctJets_lowerBound_lookup [constTF1 1 0 1, constTF1 1.05 20 200] scenarioEtaBins
    ⟨30, -0.5, 0, 0⟩ 0 (11660165 / 16777216) (by rw [scenarioEtaBins_length]; rfl)
    scenarioEtaBins_ascending (by rw [scenarioEtaBins_eq]; rfl) (by rw [scenarioEtaBins_eq]; rfl)
    (by norm_num [abs_of_neg, toFloat_1_2]) (Or.inl (by norm_num [abs_of_neg, toFloat_1_2]))

/-- C19: `correctJets` acts on each record independently.  For jet collections
`a` and `b` on which the call returns normally, the call on `a ++ b` returns
normally with the concatenation of the two results; and the call on `a ++ b`
returns normally exactly when it does on `a` and on `b`, i.e. it fails exactly
when it fails on `a` or on `b`. -/
theorem correctJets_append (a b : List TLorentzVector) (corrFns : List TF1)
    (etaBins : List ℚ) (minPt : ℚ) :
    ((correctJets a corrFns etaBins minPt).status = .done →
      (correctJets b corrFns etaBins minPt).status = .done →
      correctJets (a ++ b) corrFns etaBins minPt
        = ⟨(correctJets a corrFns etaBins minPt).jets
            ++ (correctJets b corrFns etaBins minPt).jets, .done⟩) ∧
    ((correctJets (a ++ b) corrFns etaBins minPt).status ≠ .done
      ↔ (correctJets a corrFns etaBins minPt).status ≠ .done
          ∨ (correctJets b corrFns etaBins minPt).status ≠ .done) := by
  by_cases hsize : corrFns.length ≠ sizeMinusOne etaBins.length
  · simp [correctJets, hsize]
  · simp only [correctJets, hsize, if_false]
    rw [correctLoop_append]
    by_cases hd : (correctLoop corrFns etaBins minPt a).status = .done
    · simp [hd]
    · simp [hd]

/-- Witness of C19: two one-jet collections in different bins. -/
theorem correctJets_append_witness :
    correctJets ([⟨30, 0.5, 0, 0⟩] ++ [⟨40, 0.25, 0, 0⟩])
        [constTF1 1 0 1, constTF1 1.05 20 200] scenarioEtaBins (-1)
      = ⟨(correctJets [⟨30, 0.5, 0, 0⟩] [constTF1 1 0 1, constTF1 1.05 20 200]
            scenarioEtaBins (-1)).jets
          ++ (correctJets [⟨40, 0.25, 0, 0⟩] [constTF1 1 0 1, constTF1 1.05 20 200]
            scenarioEtaBins (-1)).jets, .done⟩ :=
  (correctJets_append [⟨30, 0.5, 0, 0⟩] [⟨40, 0.25, 0, 0⟩]
      [constTF1 1 0 1, constTF1 1.05 20 200] scenarioEtaBins (-1)).1
    (correctJets_scenario_done _ _ _ _ (by norm_num [abs_of_pos, toFloat_1_2]))
    (correctJets_scenario_done _ _ _ _ (by norm_num [abs_of_pos, toFloat_1_4]))

/-- C20: whenever `correctJets` returns normally, each output jet's pt is
either exactly its input pt or a value strictly between 0 and 1000; hence if
every input pt lies strictly between 0 and 1000, so does every output pt,
whatever the table, the threshold and the transfer functions. -/
theorem correctJets_pt_bound (jets : List TLorentzVector) (corrFns : List TF1)
    (etaBins : List ℚ) (minPt : ℚ)
    (hdone : (correctJets jets corrFns etaBins minPt).status = .done) :
    (∀ (k : Nat) (jet : TLorentzVector), jets[k]? = some jet →
      ∃ out, (correctJets jets corrFns etaBins minPt).jets[k]? = some out ∧
        (out.pt = jet.pt ∨ (0 < out.pt ∧ out.pt < 1000))) ∧
    ((∀ jet ∈ jets, 0 < jet.pt ∧ jet.pt < 1000) →
      ∀ out ∈ (correctJets jets corrFns etaBins minPt).jets, 0 < out.pt ∧ out.pt < 1000) := by
  have hpos : ∀ (k : Nat) (jet : TLorentzVector), jets[k]? = some jet →
      ∃ out, (correctJets jets corrFns etaBins minPt).jets[k]? = some out ∧
        (out.pt = jet.pt ∨ (0 < out.pt ∧ out.pt < 1000)) := by
    intro k jet hk
    obtain ⟨corrFn, _, hout⟩ := correctJets_done_getElem? hdone hk
    exact ⟨applyCorrection corrFn minPt jet, hout, applyCorrection_pt corrFn minPt jet⟩
  refine ⟨hpos, ?_⟩
  intro hin out hmem
  obtain ⟨k, hk, hget⟩ := List.getElem_of_mem hmem
  have hlen : (correctJets jets corrFns etaBins minPt).jets.length = jets.length := by
    rw [correctJets_done_loop hdone]
    exact correctLoop_length corrFns etaBins minPt jets
  have hk2 : k < jets.length := by omega
  obtain ⟨out2, hout2, hpt⟩ := hpos k jets[k] (List.getElem?_eq_getElem hk2)
  rw [List.getElem?_eq_getElem hk, hget] at hout2
  cases hout2
  rcases hpt with h | h
  · rw [h]
    exact hin jets[k] (List.getElem_mem hk2)
  · exact h

/-- Witness of C20: a factor of `-3` and a factor of `1.05`; both output pts
are the input pt or inside the window. -/
theorem correctJets_pt_bound_witness :
    (correctJets [⟨30, 0.5, 0, 0⟩, ⟨40, 0.25, 0, 0⟩]
        [constTF1 (-3) 0 1000, constTF1 1.05 20 200] scenarioEtaBins (-1)).status = .done ∧
    ((∀ jet ∈ [(⟨30, 0.5, 0, 0⟩ : TLorentzVector), ⟨40, 0.25, 0, 0⟩],
        0 < jet.pt ∧ jet.pt < 1000) ∧
      ∀ out ∈ (correctJets [⟨30, 0.5, 0, 0⟩, ⟨40, 0.25, 0, 0⟩]
          [constTF1 (-3) 0 1000, constTF1 1.05 20 200] scenarioEtaBins (-1)).jets,
        0 < out.pt ∧ out.pt < 1000) :=
  have hdone : (correctJets [⟨30, 0.5, 0, 0⟩, ⟨40, 0.25, 0, 0⟩]
      [constTF1 (-3) 0 1000, constTF1 1.05 20 200] scenarioEtaBins (-1)).status = .done :=
    correctJets_scenario_done _ _ _ _ (by norm_num [abs_of_pos, toFloat_1_2, toFloat_1_4])
  have hin : ∀ jet ∈ [(⟨30, 0.5, 0, 0⟩ : TLorentzVector), ⟨40, 0.25, 0, 0⟩],
      0 < jet.pt ∧ jet.pt < 1000 := by
    norm_num
  ⟨hdone, hin, (correctJets_pt_bound [⟨30, 0.5, 0, 0⟩, ⟨40, 0.25, 0, 0⟩]
      [constTF1 (-3) 0 1000, constTF1 1.05 20 200] scenarioEtaBins (-1) hdone).2 hin⟩

/-! ## The output rows and the directory suffix -/

/-- The assignments of `RunMatcher.cpp` never write `ptRef`. -/
theorem RunMatcher.assign_ptRef (K : Kinematics) (out : OutVars) (it : MatchedPair) :
    (RunMatcher.assign K out it).ptRef = out.ptRef := rfl

/-- Every row written by the pair loop of `RunMatcher.cpp` carries in `ptRef`
the value the variable had before the loop, and so does the state after it. -/
theorem RunMatcher.storePairs_ptRef (K : Kinematics) :
    ∀ (pairs : List MatchedPair) (out : OutVars),
      (RunMatcher.storePairs K out pairs).1.ptRef = out.ptRef ∧
      ∀ row ∈ (RunMatcher.storePairs K out pairs).2, row.ptRef = out.ptRef := by
  intro pairs
  induction pairs with
  | nil => intro out; simp [RunMatcher.storePairs]
  | cons it rest ih =>
    intro out
    obtain ⟨h1, h2⟩ := ih (RunMatcher.assign K out it)
    rw [RunMatcher.assign_ptRef] at h1 h2
    refine ⟨h1, ?_⟩
    intro row hrow
    simp only [RunMatcher.storePairs, List.mem_cons] at hrow
    rcases hrow with h | h
    · rw [h, RunMatcher.assign_ptRef]
    · exact h2 row h

/-- Every row written by the event loop of `RunMatcher.cpp` carries in `ptRef`
the value the variable had before the loop. -/
theorem RunMatcher.eventLoop_ptRef (K : Kinematics) :
    ∀ (events : List (List MatchedPair)) (out : OutVars),
      ∀ row ∈ RunMatcher.eventLoop K out events, row.ptRef = out.ptRef := by
  intro events
  induction events with
  | nil => intro out row hrow; simp [RunMatcher.eventLoop] at hrow
  | cons ev rest ih =>
    intro out row hrow
    obtain ⟨h1, h2⟩ := RunMatcher.storePairs_ptRef K ev out
    simp only [RunMatcher.eventLoop, List.mem_append] at hrow
    rcases hrow with h | h
    · exact h2 row h
    · rw [← h1]
      exact ih _ row h

/-- The assignments of `RunMatcherData.cpp` write the reference jet's pt, eta
and phi, and the L1 jet's `Et()`, eta and phi. -/
theorem RunMatcherData.assign_fields (K : Kinematics) (out : OutVarsData) (it : MatchedPair) :
    (RunMatcherData.assign K out it).ptRef = it.refJet.pt ∧
    (RunMatcherData.assign K out it).etaRef = it.refJet.eta ∧
    (RunMatcherData.assign K out it).phiRef = it.refJet.phi ∧
    (RunMatcherData.assign K out it).pt = K.Et it.l1Jet ∧
    (RunMatcherData.assign K out it).eta = it.l1Jet.eta ∧
    (RunMatcherData.assign K out it).phi = it.l1Jet.phi :=
  ⟨rfl, rfl, rfl, rfl, rfl, rfl⟩

/-- The pair loop of `RunMatcherData.cpp` writes one row per pair, in order,
each the result of the assignments for that pair. -/
theorem RunMatcherData.storePairs_rows (K : Kinematics) :
    ∀ (pairs : List MatchedPair) (out : OutVarsData) (k : Nat) (it : MatchedPair),
      pairs[k]? = some it →
      ∃ o, (RunMatcherData.storePairs K out pairs).2[k]?
        = some (RunMatcherData.assign K o it) := by
  intro pairs
  induction pairs with
  | nil => intro out k it hk; simp at hk
  | cons p rest ih =>
    intro out k it hk
    cases k with
    | zero =>
      simp only [List.getElem?_cons_zero, Option.some.injEq] at hk
      subst hk
      exact ⟨out, by simp [RunMatcherData.storePairs]⟩
    | succ k =>
      simp only [List.getElem?_cons_succ] at hk
      obtain ⟨o, ho⟩ := ih (RunMatcherData.assign K out p) k it hk
      exact ⟨o, by simpa [RunMatcherData.storePairs] using ho⟩

/-- In `RunMatcherData.cpp` the row written for a pair exposes the reference
jet's (pt, eta, phi) under `ptRef`, `etaRef`, `phiRef`. -/
theorem RunMatcherData.row_exposes_ref (K : Kinematics) (pairs : List MatchedPair)
    (out : OutVarsData) (k : Nat) (it : MatchedPair) (hk : pairs[k]? = some it) :
    ∃ row, (RunMatcherData.storePairs K out pairs).2[k]? = some row ∧
      row.ptRef = it.refJet.pt ∧ row.etaRef = it.refJet.eta ∧ row.phiRef = it.refJet.phi ∧
      row.pt = K.Et it.l1Jet ∧ row.eta = it.l1Jet.eta ∧ row.phi = it.l1Jet.phi := by
  obtain ⟨o, ho⟩ := RunMatcherData.storePairs_rows K pairs out k it hk
  exact ⟨_, ho, RunMatcherData.assign_fields K o it⟩

/-- C16, the code at a failing input: for the pair of Scenario A (reference jet
of pt 50, L1 jet of pt 48) the row written by `RunMatcher.cpp` has
`ptRef = -1`, the initial value of the variable, not the reference jet's pt;
`etaRef` and `phiRef` are the reference jet's.  `RunMatcherData.cpp` writes
`ptRef = 50` for the same pair. -/
theorem RunMatcher_row_ptRef_unset (K : Kinematics) :
    (RunMatcher.eventLoop K initOutVars [[⟨⟨50, 0.10, 0, 0⟩, ⟨48, 0.12, 0.01, 0⟩⟩]]).map
        (fun row => (row.ptRef, row.etaRef, row.phiRef)) = [(-1, 0.10, 0)] ∧
    (RunMatcherData.eventLoop K initOutVarsData
        [[⟨⟨50, 0.10, 0, 0⟩, ⟨48, 0.12, 0.01, 0⟩⟩]]).map
        (fun row => (row.ptRef, row.etaRef, row.phiRef)) = [(50, 0.10, 0)] := by
  constructor
  · simp [RunMatcher.eventLoop, RunMatcher.storePairs, RunMatcher.assign, initOutVars]
  · simp [RunMatcherData.eventLoop, RunMatcherData.storePairs, RunMatcherData.assign]

/-- Cutting the pattern out of a string that starts with it leaves the
remainder. -/
theorem eraseFirstMatch_append (pat rest : List Char) (hpat : pat ≠ []) :
    eraseFirstMatch pat (pat ++ rest) = rest := by
  cases pat with
  | nil => exact absurd rfl hpat
  | cons c cs =>
    have hpre : (c :: cs).isPrefixOf (c :: (cs ++ rest)) = true := by
      rw [← List.cons_append, List.isPrefixOf_iff_prefix]
      exact List.prefix_append _ _
    change eraseFirstMatch (c :: cs) (c :: (cs ++ rest)) = rest
    rw [eraseFirstMatch, if_pos hpre]
    exact List.drop_left (c :: cs) rest

/-- For a directory name that starts with "l1ExtraTreeProducer" and goes on,
`getSuffixFromDirectory` returns the rest of the name, letter case untouched. -/
theorem getSuffixFromDirectory_strips (rest : String) (hrest : rest ≠ "") :
    getSuffixFromDirectory ("l1ExtraTreeProducer" ++ rest) = rest := by
  have hdata : ("l1ExtraTreeProducer" ++ rest).data = "l1ExtraTreeProducer".data ++ rest.data :=
    String.data_append _ _
  unfold getSuffixFromDirectory
  simp only [hdata]
  rw [eraseFirstMatch_append _ _ (by decide)]
  simp [hrest]

/-- C17, the code at the documented example: for "l1ExtraTreeProducerGctIntern"
`getSuffixFromDirectory` returns "GctIntern", with a capital G, not the
documented "gctIntern". -/
theorem getSuffixFromDirectory_documented_example :
    getSuffixFromDirectory "l1ExtraTreeProducerGctIntern" = "GctIntern" ∧
    getSuffixFromDirectory "l1ExtraTreeProducerGctIntern" ≠ "gctIntern" := by
  constructor <;> decide

/-! ## The cut filter of the matcher -/

/-- The three cuts of the reference role, as a proposition. -/
theorem checkRefJet_iff (m : DeltaR_Matcher) (jet : TLorentzVector) :
    checkRefJet m jet = true
      ↔ m.minRefJetPt_ ≤ jet.pt ∧ jet.pt ≤ m.maxRefJetPt_ ∧ |jet.eta| ≤ m.maxJetEta_ := by
  simp [checkRefJet, checkJetMinPt, checkJetMaxPt, checkJetMaxEta, and_assoc]

/-- The three cuts of the L1 role, as a proposition. -/
theorem checkL1Jet_iff (m : DeltaR_Matcher) (jet : TLorentzVector) :
    checkL1Jet m jet = true
      ↔ m.minL1JetPt_ ≤ jet.pt ∧ jet.pt ≤ m.maxL1JetPt_ ∧ |jet.eta| ≤ m.maxJetEta_ := by
  simp [checkL1Jet, checkJetMinPt, checkJetMaxPt, checkJetMaxEta, and_assoc]

/-- The sort of the setters rearranges its input. -/
theorem sortJets_perm (jets : List TLorentzVector) : (sortJets jets).Perm jets :=
  List.perm_insertionSort _ jets

/-- The sort of the setters leaves the jets in descending pt. -/
theorem sortJets_sorted (jets : List TLorentzVector) :
    (sortJets jets).Pairwise (fun a b => a.pt ≥ b.pt) := by
  haveI : IsTotal TLorentzVector (fun a b => sortPtDescending b a = false) :=
    ⟨fun a b => by
      simp only [sortPtDescending, gt_iff_lt, decide_eq_false_iff_not, not_lt]
      exact le_total b.pt a.pt⟩
  haveI : IsTrans TLorentzVector (fun a b => sortPtDescending b a = false) :=
    ⟨fun a b c h1 h2 => by
      simp only [sortPtDescending, gt_iff_lt, decide_eq_false_iff_not, not_lt] at h1 h2 ⊢
      exact le_trans h2 h1⟩
  have h := List.sorted_insertionSort (fun a b => sortPtDescending b a = false) jets
  refine List.Pairwise.imp ?_ h
  intro a b hab
  simpa [sortPtDescending] using hab

/-- C14: after `setRefJets(records)` (resp. `setL1Jets`) the pool returned by
`getRefJets` (resp. `getL1Jets`) is a rearrangement of exactly the input
records with `minPt ≤ pt ≤ maxPt` and `|eta| ≤ maxJetEta` for that role, each
kept once, in descending pt; it does not depend on the pool stored before, the
other pool is untouched, and an empty input gives an empty pool. -/
theorem setJets_cut_filter (m : DeltaR_Matcher) (records prior : List TLorentzVector) :
    ((getRefJets (setRefJets m records)).Perm
        (records.filter (fun jet => decide (m.minRefJetPt_ ≤ jet.pt ∧
          jet.pt ≤ m.maxRefJetPt_ ∧ |jet.eta| ≤ m.maxJetEta_))) ∧
      (getRefJets (setRefJets m records)).Pairwise (fun a b => a.pt ≥ b.pt) ∧
      getRefJets (setRefJets { m with refJets_ := prior } records)
        = getRefJets (setRefJets m records) ∧
      getL1Jets (setRefJets m records) = getL1Jets m ∧
      getRefJets (setRefJets m []) = []) ∧
    ((getL1Jets (setL1Jets m records)).Perm
        (records.filter (fun jet => decide (m.minL1JetPt_ ≤ jet.pt ∧
          jet.pt ≤ m.maxL1JetPt_ ∧ |jet.eta| ≤ m.maxJetEta_))) ∧
      (getL1Jets (setL1Jets m records)).Pairwise (fun a b => a.pt ≥ b.pt) ∧
      getL1Jets (setL1Jets { m with l1Jets_ := prior } records)
        = getL1Jets (setL1Jets m records) ∧
      getRefJets (setL1Jets m records) = getRefJets m ∧
      getL1Jets (setL1Jets m []) = []) := by
  have href : records.filter (checkRefJet m)
      = records.filter (fun jet => decide (m.minRefJetPt_ ≤ jet.pt ∧
          jet.pt ≤ m.maxRefJetPt_ ∧ |jet.eta| ≤ m.maxJetEta_)) := by
    apply List.filter_congr
    intro jet _
    rw [Bool.eq_iff_iff, checkRefJet_iff]
    simp
  have hl1 : records.filter (checkL1Jet m)
      = records.filter (fun jet => decide (m.minL1JetPt_ ≤ jet.pt ∧
          jet.pt ≤ m.maxL1JetPt_ ∧ |jet.eta| ≤ m.maxJetEta_)) := by
    apply List.filter_congr
    intro jet _
    rw [Bool.eq_iff_iff, checkL1Jet_iff]
    simp
  refine ⟨⟨?_, sortJets_sorted _, rfl, rfl, rfl⟩, ⟨?_, sortJets_sorted _, rfl, rfl, rfl⟩⟩
  · show (sortJets (records.filter (checkRefJet m))).Perm _
    rw [← href]
    exact sortJets_perm _
  · show (sortJets (records.filter (checkL1Jet m))).Perm _
    rw [← hl1]
    exact sortJets_perm _

/-- Witness of C14 (cut exclusion): with the cuts of `main`, a reference jet of
pt 10 is below `minRefJetPt = 14` and is not stored. -/
theorem setJets_cut_filter_witness :
    getRefJets (setRefJets mainMatcher [⟨10, 1, 0, 0⟩]) = [] := by
  have h := (setJets_cut_filter mainMatcher [⟨10, 1, 0, 0⟩] []).1.1
  have hfilter : ([⟨10, 1, 0, 0⟩] : List TLorentzVector).filter
      (fun jet => decide (mainMatcher.minRefJetPt_ ≤ jet.pt ∧
        jet.pt ≤ mainMatcher.maxRefJetPt_ ∧ |jet.eta| ≤ mainMatcher.maxJetEta_)) = [] := by
    norm_num [mainMatcher]
  rw [hfilter] at h
  exact h.eq_nil

/-! ## The matching loop -/

/-- No reference is selected only when none is available. -/
theorem closestRef_eq_none_iff (K : Kinematics) (l1 : TLorentzVector) :
    ∀ available : List (Nat × TLorentzVector),
      closestRef K l1 available = none ↔ available = [] := by
  intro available
  cases available with
  | nil => simp [closestRef]
  | cons p rest =>
    simp only [closestRef]
    cases closestRef K l1 rest with
    | none => simp
    | some q => by_cases h : K.DeltaR q.2 l1 < K.DeltaR p.2 l1 <;> simp [h]

/-- The selected reference is available and no available reference is nearer
to the candidate. -/
theorem closestRef_some (K : Kinematics) (l1 : TLorentzVector) :
    ∀ (available : List (Nat × TLorentzVector)) (p : Nat × TLorentzVector),
      closestRef K l1 available = some p →
      p ∈ available ∧ ∀ q ∈ available, K.DeltaR p.2 l1 ≤ K.DeltaR q.2 l1 := by
  intro available
  induction available with
  | nil => intro p h; simp [closestRef] at h
  | cons a rest ih =>
    intro p h
    simp only [closestRef] at h
    cases hrest : closestRef K l1 rest with
    | none =>
      rw [hrest] at h
      simp only [Option.some.injEq] at h
      subst h
      have hnil := (closestRef_eq_none_iff K l1 rest).mp hrest
      subst hnil
      exact ⟨List.mem_cons_self _ _, fun q hq => by
        simp only [List.mem_singleton] at hq
        rw [hq]⟩
    | some q0 =>
      rw [hrest] at h
      obtain ⟨hmem, hmin⟩ := ih q0 hrest
      by_cases hlt : K.DeltaR q0.2 l1 < K.DeltaR a.2 l1
      · simp only [hlt, if_true, Option.some.injEq] at h
        subst h
        refine ⟨List.mem_cons_of_mem _ hmem, ?_⟩
        intro q hq
        rcases List.mem_cons.mp hq with h1 | h1
        · rw [h1]
          exact le_of_lt hlt
        · exact hmin q h1
      · simp only [hlt, if_false, Option.some.injEq] at h
        subst h
        refine ⟨List.mem_cons_self _ _, ?_⟩
        intro q hq
        rcases List.mem_cons.mp hq with h1 | h1
        · rw [h1]
        · exact le_trans (not_lt.mp hlt) (hmin q h1)

/-- A candidate is either paired with its closest available reference, which
is strictly nearer than `maxDeltaR`, or no available reference is strictly
nearer than `maxDeltaR`. -/
theorem closestRef_cases (K : Kinematics) (maxDeltaR : ℚ) (l1 : TLorentzVector)
    (available : List (Nat × TLorentzVector)) :
    (∃ p, closestRef K l1 available = some p ∧ K.DeltaR p.2 l1 < maxDeltaR) ∨
    ((∀ p, closestRef K l1 available = some p → ¬ K.DeltaR p.2 l1 < maxDeltaR) ∧
      ∀ q ∈ available, ¬ K.DeltaR q.2 l1 < maxDeltaR) := by
  cases h : closestRef K l1 available with
  | none =>
    right
    have hnil := (closestRef_eq_none_iff K l1 available).mp h
    subst hnil
    exact ⟨fun p hp => (by cases hp), fun q hq => (by cases hq)⟩
  | some p =>
    by_cases hlt : K.DeltaR p.2 l1 < maxDeltaR
    · left
      exact ⟨p, rfl, hlt⟩
    · right
      refine ⟨fun p2 hp2 => (by cases hp2; exact hlt), ?_⟩
      intro q hq hq2
      exact hlt (lt_of_le_of_lt ((closestRef_some K l1 available p h).2 q hq) hq2)

/-- One turn of the matching loop that emits a pair. -/
theorem matchLoop_cons_match (K : Kinematics) (maxDeltaR : ℚ) (c : Nat) (l1 : TLorentzVector)
    (rest : List TLorentzVector) (available : List (Nat × TLorentzVector))
    (p : Nat × TLorentzVector) (hp : closestRef K l1 available = some p)
    (hlt : K.DeltaR p.2 l1 < maxDeltaR) :
    matchLoop K maxDeltaR c (l1 :: rest) available
      = ⟨p.1, c, ⟨p.2, l1⟩⟩
        :: matchLoop K maxDeltaR (c + 1) rest (available.filter (fun q => q.1 ≠ p.1)) := by
  simp [matchLoop, hp, hlt]

/-- One turn of the matching loop that leaves the candidate unmatched. -/
theorem matchLoop_cons_skip (K : Kinematics) (maxDeltaR : ℚ) (c : Nat) (l1 : TLorentzVector)
    (rest : List TLorentzVector) (available : List (Nat × TLorentzVector))
    (h : ∀ p, closestRef K l1 available = some p → ¬ K.DeltaR p.2 l1 < maxDeltaR) :
    matchLoop K maxDeltaR c (l1 :: rest) available
      = matchLoop K maxDeltaR (c + 1) rest available := by
  cases hc : closestRef K l1 available with
  | none => simp [matchLoop, hc]
  | some p => simp [matchLoop, hc, h p hc]

/-- Every pair emitted by the matching loop started at position `c0` joins a
candidate at a position `≥ c0`, read from the candidate list, with a reference
that was available, and the two are strictly nearer than `maxDeltaR`. -/
theorem matchLoop_sound (K : Kinematics) (maxDeltaR : ℚ) :
    ∀ (rest : List TLorentzVector) (c0 : Nat) (available : List (Nat × TLorentzVector)),
      ∀ s ∈ matchLoop K maxDeltaR c0 rest available,
        c0 ≤ s.l1Index ∧ rest[s.l1Index - c0]? = some s.pair.l1Jet ∧
        (s.refIndex, s.pair.refJet) ∈ available ∧
        K.DeltaR s.pair.refJet s.pair.l1Jet < maxDeltaR := by
  intro rest
  induction rest with
  | nil => intro c0 available s hs; simp [matchLoop] at hs
  | cons l1 rest ih =>
    intro c0 available s hs
    rcases closestRef_cases K maxDeltaR l1 available with ⟨p, hp, hlt⟩ | ⟨hskip, _⟩
    · rw [matchLoop_cons_match K maxDeltaR c0 l1 rest available p hp hlt] at hs
      rcases List.mem_cons.mp hs with h | h
      · subst h
        exact ⟨le_refl _, by simp, (closestRef_some K l1 available p hp).1, hlt⟩
      · obtain ⟨h1, h2, h3, h4⟩ := ih (c0 + 1) _ s h
        have hidx : s.l1Index - c0 = (s.l1Index - (c0 + 1)) + 1 := by omega
        refine ⟨by omega, by rw [hidx, List.getElem?_cons_succ]; exact h2,
          (List.mem_filter.mp h3).1, h4⟩
    · rw [matchLoop_cons_skip K maxDeltaR c0 l1 rest available hskip] at hs
      obtain ⟨h1, h2, h3, h4⟩ := ih (c0 + 1) _ s hs
      have hidx : s.l1Index - c0 = (s.l1Index - (c0 + 1)) + 1 := by omega
      exact ⟨by omega, by rw [hidx, List.getElem?_cons_succ]; exact h2, h3, h4⟩

/-- The matching loop emits its pairs in the order of the candidates: the
candidate positions are strictly increasing. -/
theorem matchLoop_order (K : Kinematics) (maxDeltaR : ℚ) :
    ∀ (rest : List TLorentzVector) (c0 : Nat) (available : List (Nat × TLorentzVector)),
      (matchLoop K maxDeltaR c0 rest available).Pairwise (fun s t => s.l1Index < t.l1Index) := by
  intro rest
  induction rest with
  | nil => intro c0 available; simp [matchLoop]
  | cons l1 rest ih =>
    intro c0 available
    rcases closestRef_cases K maxDeltaR l1 available with ⟨p, hp, hlt⟩ | ⟨hskip, _⟩
    · rw [matchLoop_cons_match K maxDeltaR c0 l1 rest available p hp hlt]
      refine List.Pairwise.cons ?_ (ih (c0 + 1) _)
      intro t ht
      have := (matchLoop_sound K maxDeltaR rest (c0 + 1) _ t ht).1
      show c0 < t.l1Index
      omega
    · rw [matchLoop_cons_skip K maxDeltaR c0 l1 rest available hskip]
      exact ih (c0 + 1) _

/-- The reference of an emitted pair was not taken by an earlier candidate,
and no reference that was available and not taken by an earlier candidate is
nearer to the candidate. -/
theorem matchLoop_minimal (K : Kinematics) (maxDeltaR : ℚ) :
    ∀ (rest : List TLorentzVector) (c0 : Nat) (available : List (Nat × TLorentzVector)),
      ∀ s ∈ matchLoop K maxDeltaR c0 rest available,
        (∀ t ∈ matchLoop K maxDeltaR c0 rest available,
          t.l1Index < s.l1Index → t.refIndex ≠ s.refIndex) ∧
        (∀ q ∈ available,
          (∀ t ∈ matchLoop K maxDeltaR c0 rest available,
            t.l1Index < s.l1Index → t.refIndex ≠ q.1) →
          K.DeltaR s.pair.refJet s.pair.l1Jet ≤ K.DeltaR q.2 s.pair.l1Jet) := by
  intro rest
  induction rest with
  | nil => intro c0 available s hs; simp [matchLoop] at hs
  | cons l1 rest ih =>
    intro c0 available s hs
    rcases closestRef_cases K maxDeltaR l1 available with ⟨p, hp, hlt⟩ | ⟨hskip, _⟩
    · rw [matchLoop_cons_match K maxDeltaR c0 l1 rest available p hp hlt] at hs ⊢
      have hpos : ∀ t ∈ matchLoop K maxDeltaR (c0 + 1) rest
          (available.filter (fun q => q.1 ≠ p.1)), c0 + 1 ≤ t.l1Index :=
        fun t ht => (matchLoop_sound K maxDeltaR rest (c0 + 1) _ t ht).1
      rcases List.mem_cons.mp hs with h | h
      · subst h
        constructor
        · intro t ht hlt2
          rcases List.mem_cons.mp ht with h2 | h2
          · subst h2
            exact absurd hlt2 (lt_irrefl _)
          · have := hpos t h2
            simp only at hlt2
            omega
        · intro q hq _
          exact (closestRef_some K l1 available p hp).2 q hq
      · obtain ⟨hfresh, hmin⟩ := ih (c0 + 1) _ s h
        have hs1 := hpos s h
        have hsref : s.refIndex ≠ p.1 := by
          have h3 := (matchLoop_sound K maxDeltaR rest (c0 + 1) _ s h).2.2.1
          simpa using (List.mem_filter.mp h3).2
        constructor
        · intro t ht hlt2
          rcases List.mem_cons.mp ht with h2 | h2
          · subst h2
            exact fun heq => hsref heq.symm
          · exact hfresh t h2 hlt2
        · intro q hq hq2
          have hq1 : q.1 ≠ p.1 := by
            have := hq2 ⟨p.1, c0, ⟨p.2, l1⟩⟩ (List.mem_cons_self _ _) (by show c0 < s.l1Index; omega)
            exact fun heq => this heq.symm
          exact hmin q (List.mem_filter.mpr ⟨hq, by simpa using hq1⟩)
            (fun t ht hlt2 => hq2 t (List.mem_cons_of_mem _ ht) hlt2)
    · rw [matchLoop_cons_skip K maxDeltaR c0 l1 rest available hskip] at hs ⊢
      exact ih (c0 + 1) _ s hs

/-- A candidate is left unmatched by the matching loop exactly when no
reference that was available and not taken by an earlier candidate is strictly
nearer to it than `maxDeltaR`. -/
theorem matchLoop_unmatched_iff (K : Kinematics) (maxDeltaR : ℚ) :
    ∀ (rest : List TLorentzVector) (c0 : Nat) (available : List (Nat × TLorentzVector))
      (c : Nat) (l : TLorentzVector), c0 ≤ c → rest[c - c0]? = some l →
      ((∀ s ∈ matchLoop K maxDeltaR c0 rest available, s.l1Index ≠ c) ↔
        ∀ q ∈ available,
          (∀ t ∈ matchLoop K maxDeltaR c0 rest available, t.l1Index < c → t.refIndex ≠ q.1) →
          ¬ K.DeltaR q.2 l < maxDeltaR) := by
  intro rest
  induction rest with
  | nil => intro c0 available c l _ hl; simp at hl
  | cons l1 rest ih =>
    intro c0 available c l hc hl
    rcases closestRef_cases K maxDeltaR l1 available with ⟨p, hp, hlt⟩ | ⟨hskip, hnone⟩
    · rw [matchLoop_cons_match K maxDeltaR c0 l1 rest available p hp hlt]
      have hpos : ∀ t ∈ matchLoop K maxDeltaR (c0 + 1) rest
          (available.filter (fun q => q.1 ≠ p.1)), c0 + 1 ≤ t.l1Index :=
        fun t ht => (matchLoop_sound K maxDeltaR rest (c0 + 1) _ t ht).1
      rcases Nat.eq_or_lt_of_le hc with heq | hlt2
      · subst heq
        simp only [Nat.sub_self, List.getElem?_cons_zero, Option.some.injEq] at hl
        subst hl
        constructor
        · intro h
          exact absurd rfl (h _ (List.mem_cons_self _ _))
        · intro h
          refine absurd hlt (h p (closestRef_some K l1 available p hp).1 ?_)
          intro t ht hlt3
          rcases List.mem_cons.mp ht with h2 | h2
          · subst h2
            exact absurd hlt3 (lt_irrefl _)
          · have := hpos t h2
            omega
      · have hidx : c - c0 = (c - (c0 + 1)) + 1 := by omega
        rw [hidx, List.getElem?_cons_succ] at hl
        have hih := ih (c0 + 1) (available.filter (fun q => q.1 ≠ p.1)) c l (by omega) hl
        constructor
        · intro h q hq hq2
          have hq1 : q.1 ≠ p.1 := by
            have := hq2 ⟨p.1, c0, ⟨p.2, l1⟩⟩ (List.mem_cons_self _ _) hlt2
            exact fun heq => this heq.symm
          exact hih.mp (fun s hs => h s (List.mem_cons_of_mem _ hs)) q
            (List.mem_filter.mpr ⟨hq, by simpa using hq1⟩)
            (fun t ht hlt3 => hq2 t (List.mem_cons_of_mem _ ht) hlt3)
        · intro h s hs
          rcases List.mem_cons.mp hs with h2 | h2
          · subst h2
            show c0 ≠ c
            omega
          · refine hih.mpr ?_ s h2
            intro q hq hq2
            have hq0 := List.mem_filter.mp hq
            have hq1 : q.1 ≠ p.1 := by simpa using hq0.2
            refine h q hq0.1 ?_
            intro t ht hlt3
            rcases List.mem_cons.mp ht with h3 | h3
            · subst h3
              exact fun heq => hq1 heq.symm
            · exact hq2 t h3 hlt3
    · rw [matchLoop_cons_skip K maxDeltaR c0 l1 rest available hskip]
      have hpos : ∀ t ∈ matchLoop K maxDeltaR (c0 + 1) rest available, c0 + 1 ≤ t.l1Index :=
        fun t ht => (matchLoop_sound K maxDeltaR rest (c0 + 1) _ t ht).1
      rcases Nat.eq_or_lt_of_le hc with heq | hlt2
      · subst heq
        simp only [Nat.sub_self, List.getElem?_cons_zero, Option.some.injEq] at hl
        subst hl
        constructor
        · intro _ q hq _
          exact hnone q hq
        · intro _ s hs
          have := hpos s hs
          omega
      · have hidx : c - c0 = (c - (c0 + 1)) + 1 := by omega
        rw [hidx, List.getElem?_cons_succ] at hl
        exact ih (c0 + 1) available c l (by omega) hl

/-! ## Claims about the matcher -/

/-- C13: for every pair of stored pools and every `maxDeltaR`, the pairs
returned by `getMatchingPairs` are those of the matching loop, each made of the
jets at its two positions in the pools, and the loop uses each reference
position in at most one pair and each candidate position in at most one pair. -/
theorem getMatchingPairs_injective (K : Kinematics) (m : DeltaR_Matcher) :
    getMatchingPairs K m = (matchSelections K m).map (fun s => s.pair) ∧
    (∀ s ∈ matchSelections K m,
      m.refJets_[s.refIndex]? = some s.pair.refJet ∧
      m.l1Jets_[s.l1Index]? = some s.pair.l1Jet) ∧
    ((matchSelections K m).map (fun s => s.refIndex)).Nodup ∧
    ((matchSelections K m).map (fun s => s.l1Index)).Nodup := by
  have horder := matchLoop_order K m.maxDeltaR_ m.l1Jets_ 0 m.refJets_.enum
  refine ⟨rfl, ?_, ?_, ?_⟩
  · intro s hs
    obtain ⟨_, h2, h3, _⟩ := matchLoop_sound K m.maxDeltaR_ m.l1Jets_ 0 m.refJets_.enum s hs
    exact ⟨List.mk_mem_enum_iff_getElem?.mp h3, by simpa using h2⟩
  · show List.Pairwise (· ≠ ·) _
    rw [List.pairwise_map]
    refine List.Pairwise.imp_of_mem ?_ horder
    intro a b ha hb hab
    exact (matchLoop_minimal K m.maxDeltaR_ m.l1Jets_ 0 m.refJets_.enum b hb).1 a ha hab
  · show List.Pairwise (· ≠ ·) _
    rw [List.pairwise_map]
    refine List.Pairwise.imp ?_ horder
    intro a b hab
    exact Nat.ne_of_lt hab

/-- C15: every pair emitted by `getMatchingPairs` has separation strictly less
than `maxDeltaR` (so a separation equal to `maxDeltaR` never matches); its
reference was not taken by an earlier candidate and is of minimal separation
among the references not taken by an earlier candidate; a candidate is left
unmatched exactly when no reference not taken by an earlier candidate is
strictly nearer than `maxDeltaR`; candidates are processed in pool order, which
after `setL1Jets` is descending pt. -/
theorem getMatchingPairs_greedy (K : Kinematics) (m : DeltaR_Matcher)
    (l1Jets : List TLorentzVector) :
    (∀ s ∈ matchSelections K m,
      K.DeltaR s.pair.refJet s.pair.l1Jet < m.maxDeltaR_ ∧
      K.DeltaR s.pair.refJet s.pair.l1Jet ≠ m.maxDeltaR_ ∧
      (∀ t ∈ matchSelections K m, t.l1Index < s.l1Index → t.refIndex ≠ s.refIndex) ∧
      (∀ (j : Nat) (r : TLorentzVector), m.refJets_[j]? = some r →
        (∀ t ∈ matchSelections K m, t.l1Index < s.l1Index → t.refIndex ≠ j) →
        K.DeltaR s.pair.refJet s.pair.l1Jet ≤ K.DeltaR r s.pair.l1Jet)) ∧
    (∀ (c : Nat) (l : TLorentzVector), m.l1Jets_[c]? = some l →
      ((∀ s ∈ matchSelections K m, s.l1Index ≠ c) ↔
        ∀ (j : Nat) (r : TLorentzVector), m.refJets_[j]? = some r →
          (∀ t ∈ matchSelections K m, t.l1Index < c → t.refIndex ≠ j) →
          ¬ K.DeltaR r l < m.maxDeltaR_)) ∧
    (matchSelections K m).Pairwise (fun s t => s.l1Index < t.l1Index) ∧
    (matchSelections K (setL1Jets m l1Jets)).Pairwise
      (fun s t => s.pair.l1Jet.pt ≥ t.pair.l1Jet.pt) := by
  refine ⟨?_, ?_, matchLoop_order K m.maxDeltaR_ m.l1Jets_ 0 m.refJets_.enum, ?_⟩
  · intro s hs
    obtain ⟨_, _, _, hlt⟩ := matchLoop_sound K m.maxDeltaR_ m.l1Jets_ 0 m.refJets_.enum s hs
    obtain ⟨hfresh, hmin⟩ := matchLoop_minimal K m.maxDeltaR_ m.l1Jets_ 0 m.refJets_.enum s hs
    refine ⟨hlt, ne_of_lt hlt, hfresh, ?_⟩
    intro j r hj hfree
    exact hmin (j, r) (List.mk_mem_enum_iff_getElem?.mpr hj) hfree
  · intro c l hl
    have h := matchLoop_unmatched_iff K m.maxDeltaR_ m.l1Jets_ 0 m.refJets_.enum c l
      (Nat.zero_le c) (by simpa using hl)
    constructor
    · intro hun j r hj hfree
      exact h.mp hun (j, r) (List.mk_mem_enum_iff_getElem?.mpr hj) hfree
    · intro hall
      refine h.mpr ?_
      intro q hq hfree
      exact hall q.1 q.2 (List.mem_enum_iff_getElem?.mp hq) hfree
  · have hsorted : (setL1Jets m l1Jets).l1Jets_.Pairwise (fun a b => a.pt ≥ b.pt) :=
      sortJets_sorted _
    have horder := matchLoop_order K (setL1Jets m l1Jets).maxDeltaR_
      (setL1Jets m l1Jets).l1Jets_ 0 (setL1Jets m l1Jets).refJets_.enum
    refine List.Pairwise.imp_of_mem ?_ horder
    intro a b ha hb hab
    have h1 := (matchLoop_sound K _ _ 0 _ a ha).2.1
    have h2 := (matchLoop_sound K _ _ 0 _ b hb).2.1
    simp only [Nat.sub_zero] at h1 h2
    obtain ⟨ia, ha2⟩ := List.getElem?_eq_some.mp h1
    obtain ⟨ib, hb2⟩ := List.getElem?_eq_some.mp h2
    have := (List.pairwise_iff_getElem.mp hsorted) a.l1Index b.l1Index ia ib hab
    rw [ha2, hb2] at this
    exact this

/-- The priority scenario of the specification: two candidates of pt 40 and 80
within reach of a single reference; the candidate of pt 80 takes it and the
other is left unmatched. -/
theorem getMatchingPairs_priority :
    getMatchingPairs gapKinematics
        (setL1Jets (setRefJets mainMatcher [⟨50, 0.1, 0, 0⟩])
          [⟨40, 0.1, 0, 0⟩, ⟨80, 0.2, 0, 0⟩])
      = [⟨⟨50, 0.1, 0, 0⟩, ⟨80, 0.2, 0, 0⟩⟩] := by
  norm_num [getMatchingPairs, matchSelections, matchLoop, closestRef, setL1Jets, setRefJets,
    mainMatcher, checkRefJet, checkL1Jet, checkJetMinPt, checkJetMaxPt, checkJetMaxEta,
    sortJets, sortPtDescending, List.filter, abs_of_pos, List.insertionSort,
    List.orderedInsert, gapKinematics, List.enum, List.enumFrom]

/-- A separation equal to `maxDeltaR = 0.7` does not match. -/
theorem getMatchingPairs_threshold_strict :
    getMatchingPairs gapKinematics
        (setL1Jets (setRefJets mainMatcher [⟨50, 0, 0, 0⟩]) [⟨48, 0.7, 0, 0⟩]) = [] := by
  norm_num [getMatchingPairs, matchSelections, matchLoop, closestRef, setL1Jets, setRefJets,
    mainMatcher, checkRefJet, checkL1Jet, checkJetMinPt, checkJetMaxPt, checkJetMaxEta,
    sortJets, sortPtDescending, List.filter, abs_of_pos, abs_of_neg, List.insertionSort,
    List.orderedInsert, gapKinematics, List.enum, List.enumFrom]

end L1JetEnergyCorrections
